import Mathlib

/-!
Verification of the knowledge-graph assembly engine and the
activation-propagation ranking loop of the oncology hypothesis-generation
backend (`backend/app/kg_builder.py` and `backend/app/ttt.py`).

The Python code is shallowly embedded:
  * Python floats are idealised as exact rationals (`ℚ`); the transcendental
    operations of the cross-domain booster (`math.log`) and of the robust
    ranker (`statistics.stdev`, a square root) are idealised over `ℝ`.
  * `round(x, d)` (Python's banker's rounding) is modelled exactly by
    `pyRound` (round half to even on the grid of multiples of `10⁻ᵈ`).
  * A `networkx.DiGraph` is a structure holding the node insertion order,
    a node-attribute map, the edge insertion order, and an edge-attribute
    map.  At most one edge per ordered pair exists, as in `DiGraph`.
  * Language-model collaborators (`anthropic` client calls) are injected
    oracles; the degraded no-client paths are embedded exactly.
  * `nx.spring_layout` (a seeded pseudo-random force simulation) is passed
    in as an opaque position function; nothing proved here depends on it.
-/

/-! ## Python `round` (banker's rounding) over `ℚ` -/

/-- Round half to even: the integer nearest to `x`, ties going to the even
integer.  Mirrors Python's `round` on an exact rational value. -/
def roundHalfEven (x : ℚ) : ℤ :=
  if x - (⌊x⌋ : ℚ) < 1/2 then ⌊x⌋
  else if 1/2 < x - (⌊x⌋ : ℚ) then ⌊x⌋ + 1
  else if ⌊x⌋ % 2 = 0 then ⌊x⌋ else ⌊x⌋ + 1

/-- Python's `round(x, d)` on an exact rational value. -/
def pyRound (x : ℚ) (d : ℕ) : ℚ :=
  ((roundHalfEven (x * 10 ^ d) : ℤ) : ℚ) / 10 ^ d

theorem roundHalfEven_intCast (n : ℤ) : roundHalfEven (n : ℚ) = n := by
  unfold roundHalfEven
  simp

theorem le_roundHalfEven {A : ℤ} {x : ℚ} (h : (A : ℚ) ≤ x) :
    A ≤ roundHalfEven x := by
  unfold roundHalfEven
  have hfl : A ≤ ⌊x⌋ := Int.le_floor.mpr h
  split
  · exact hfl
  · split
    · omega
    · split
      · exact hfl
      · omega

theorem roundHalfEven_le {B : ℤ} {x : ℚ} (h : x ≤ (B : ℚ)) :
    roundHalfEven x ≤ B := by
  have hfl : ⌊x⌋ ≤ B := by
    have := Int.floor_le_floor h
    simpa using this
  have hsucc : ¬ (x - (⌊x⌋ : ℚ) < 1/2) → ⌊x⌋ + 1 ≤ B := by
    intro hge
    push_neg at hge
    have hne : (⌊x⌋ : ℚ) < x := by linarith
    have hlt : (⌊x⌋ : ℚ) < (B : ℚ) := lt_of_lt_of_le hne h
    have : ⌊x⌋ < B := by exact_mod_cast hlt
    omega
  unfold roundHalfEven
  split
  · exact hfl
  · rename_i h1
    split
    · exact hsucc h1
    · split
      · exact hfl
      · exact hsucc h1

/-- `pyRound` keeps a value between two grid points of the rounding grid. -/
theorem pyRound_bounds {A B : ℤ} {x : ℚ} (d : ℕ)
    (hA : (A : ℚ) / 10 ^ d ≤ x) (hB : x ≤ (B : ℚ) / 10 ^ d) :
    (A : ℚ) / 10 ^ d ≤ pyRound x d ∧ pyRound x d ≤ (B : ℚ) / 10 ^ d := by
  have hpow : (0 : ℚ) < 10 ^ d := by positivity
  have hA2 : (A : ℚ) ≤ x * 10 ^ d := by
    rw [div_le_iff₀ hpow] at hA
    exact hA
  have hB2 : x * 10 ^ d ≤ (B : ℚ) := by
    rw [le_div_iff₀ hpow] at hB
    exact hB
  constructor
  · unfold pyRound
    gcongr
    exact_mod_cast le_roundHalfEven hA2
  · unfold pyRound
    gcongr
    exact_mod_cast roundHalfEven_le hB2

theorem pyRound_mem_unitInterval {x : ℚ} (d : ℕ) (h0 : 0 ≤ x) (h1 : x ≤ 1) :
    0 ≤ pyRound x d ∧ pyRound x d ≤ 1 := by
  have hpow : (0 : ℚ) < 10 ^ d := by positivity
  have := pyRound_bounds (A := 0) (B := 10 ^ d) d
    (by simpa using h0)
    (by rw [le_div_iff₀ hpow]; push_cast; nlinarith)
  constructor
  · have h := this.1
    simpa using h
  · have h := this.2
    calc pyRound x d ≤ ((10 ^ d : ℤ) : ℚ) / 10 ^ d := h
    _ = 1 := by
        push_cast
        field_simp

theorem pyRound_zero (d : ℕ) : pyRound 0 d = 0 := by
  unfold pyRound
  rw [zero_mul, show ((0 : ℚ)) = ((0 : ℤ) : ℚ) by norm_num, roundHalfEven_intCast]
  norm_num

theorem pyRound_one (d : ℕ) : pyRound 1 d = 1 := by
  unfold pyRound
  rw [one_mul, show ((10 : ℚ) ^ d) = (((10 : ℤ) ^ d : ℤ) : ℚ) by push_cast; ring,
    roundHalfEven_intCast]
  have hpow : (0 : ℚ) < 10 ^ d := by positivity
  push_cast
  field_simp

/-- `pyRound` fixes every point of its own grid; in particular it is
idempotent. -/
theorem pyRound_grid (n : ℤ) (d : ℕ) :
    pyRound ((n : ℚ) / 10 ^ d) d = (n : ℚ) / 10 ^ d := by
  unfold pyRound
  have hpow : (10 : ℚ) ^ d ≠ 0 := by positivity
  rw [div_mul_cancel₀ _ hpow, roundHalfEven_intCast]

theorem pyRound_idem (x : ℚ) (d : ℕ) : pyRound (pyRound x d) d = pyRound x d :=
  pyRound_grid _ d

/-- Evaluation rule for `pyRound` at a grid point (used to compute concrete
instances, since `ℚ` arithmetic does not reduce in the kernel). -/
theorem pyRound_of_int {x : ℚ} {d : ℕ} {n : ℤ} (h : x * 10 ^ d = (n : ℚ)) :
    pyRound x d = (n : ℚ) / 10 ^ d := by
  unfold pyRound
  rw [h, roundHalfEven_intCast]

/-! ## Real-valued variant (used where Python mixes rounded floats with
square roots); it agrees with the rational one on rational inputs. -/

noncomputable def roundHalfEvenR (x : ℝ) : ℤ :=
  if x - (⌊x⌋ : ℝ) < 1/2 then ⌊x⌋
  else if 1/2 < x - (⌊x⌋ : ℝ) then ⌊x⌋ + 1
  else if ⌊x⌋ % 2 = 0 then ⌊x⌋ else ⌊x⌋ + 1

noncomputable def pyRoundR (x : ℝ) (d : ℕ) : ℝ :=
  ((roundHalfEvenR (x * 10 ^ d) : ℤ) : ℝ) / 10 ^ d

theorem roundHalfEvenR_ratCast (q : ℚ) :
    roundHalfEvenR (q : ℝ) = roundHalfEven q := by
  unfold roundHalfEvenR roundHalfEven
  rw [Rat.floor_cast,
    show ((q : ℝ) - ((⌊q⌋ : ℤ) : ℝ)) = ((q - ((⌊q⌋ : ℤ) : ℚ) : ℚ) : ℝ) by push_cast; ring,
    show ((1 : ℝ)/2) = (((1 : ℚ)/2 : ℚ) : ℝ) by norm_num]
  simp only [Rat.cast_lt]

theorem pyRoundR_ratCast (q : ℚ) (d : ℕ) :
    pyRoundR (q : ℝ) d = ((pyRound q d : ℚ) : ℝ) := by
  unfold pyRoundR pyRound
  rw [show ((q : ℝ) * 10 ^ d) = ((q * 10 ^ d : ℚ) : ℝ) by push_cast; ring,
    roundHalfEvenR_ratCast]
  push_cast
  ring

/-! ## String helpers mirroring the Python primitives.
They are written over `List Char` by structural recursion so that the
kernel can evaluate them on concrete inputs. -/

/-- Python's `str.lower` (ASCII domain). -/
def lowerStr (s : String) : String := String.mk (s.toList.map Char.toLower)

/-- Python's `sub in hay` substring test. -/
def containsStr (hay sub : String) : Bool :=
  (List.range (hay.toList.length + 1)).any
    (fun i => sub.toList.isPrefixOf (hay.toList.drop i))

/-- Python's `s.endswith(suffix)`. -/
def endsWithStr (s suffix : String) : Bool :=
  suffix.toList.isSuffixOf s.toList

/-- Python's `s.replace(a, b)` for one-character patterns (the only shape
the builder uses: `"_" ↦ " "` and `" " ↦ "_"`). -/
def replaceChar (s : String) (a b : Char) : String :=
  String.mk (s.toList.map (fun c => if c = a then b else c))

/-- Split at every character satisfying `p`, keeping empty fragments
(the behaviour of `str.split(sep)`). -/
def splitChars (p : Char → Bool) : List Char → List (List Char)
  | [] => [[]]
  | c :: cs =>
    let rest := splitChars p cs
    if p c then [] :: rest
    else
      match rest with
      | [] => [[c]]
      | w :: ws => (c :: w) :: ws

/-- `query.lower().split()`: lower-case, split on whitespace, drop empty
fragments (Python's no-argument `split` collapses whitespace runs). -/
def queryTerms (q : String) : List String :=
  (((splitChars (fun c => c.isWhitespace) (lowerStr q).toList).map String.mk).filter
    (fun s => ¬ s.isEmpty))

/-! ## The graph store (`networkx.DiGraph` with attribute dictionaries) -/

/-- Node attributes, as set by `KnowledgeGraphBuilder` (`kg_builder.py`).
`type_` stands for the Python attribute key `type`. -/
structure NodeAttrs where
  type_ : String
  label : String
  confidence : ℚ
  color : String
  border_color : String
  source : String
  signal_role : Option String := none
  deriving DecidableEq, Repr

/-- Edge attributes, as set by `KnowledgeGraphBuilder`. -/
structure EdgeAttrs where
  weight : ℚ
  relation : String
  label : String
  color : String
  source : String
  signal_direction : Option String := none
  deriving DecidableEq, Repr

/-- A directed attributed graph: insertion-ordered node and edge lists plus
attribute lookups (`networkx.DiGraph` keeps dict insertion order). -/
structure Graph where
  nodeIds : List String
  nodeAttr : String → Option NodeAttrs
  edgeIds : List (String × String)
  edgeAttr : String × String → Option EdgeAttrs

def Graph.empty : Graph :=
  { nodeIds := [], nodeAttr := fun _ => none, edgeIds := [], edgeAttr := fun _ => none }

def Graph.addNode (g : Graph) (n : String) (a : NodeAttrs) : Graph :=
  { g with nodeIds := g.nodeIds ++ [n],
           nodeAttr := fun m => if m = n then some a else g.nodeAttr m }

/-- Overwrite the attributes of an existing node (position kept, as for a
Python dict update). -/
def Graph.setNodeAttr (g : Graph) (n : String) (a : NodeAttrs) : Graph :=
  { g with nodeAttr := fun m => if m = n then some a else g.nodeAttr m }

def Graph.addEdge (g : Graph) (e : String × String) (a : EdgeAttrs) : Graph :=
  { g with edgeIds := g.edgeIds ++ [e],
           edgeAttr := fun e2 => if e2 = e then some a else g.edgeAttr e2 }

def Graph.setEdgeAttr (g : Graph) (e : String × String) (a : EdgeAttrs) : Graph :=
  { g with edgeAttr := fun e2 => if e2 = e then some a else g.edgeAttr e2 }

/-- `graph.nodes[n].get("label", str(n))` as used by the ranker. -/
def Graph.labelOf (g : Graph) (n : String) : String :=
  match g.nodeAttr n with
  | some a => a.label
  | none => n

/-- `graph.nodes[n].get("type", "unknown")`. -/
def Graph.typeOf (g : Graph) (n : String) : String :=
  match g.nodeAttr n with
  | some a => a.type_
  | none => "unknown"

/-- `attrs.get("confidence", 0.5)` in `serialise`. -/
def Graph.confOf (g : Graph) (n : String) : ℚ :=
  match g.nodeAttr n with
  | some a => a.confidence
  | none => 1/2

def Graph.sourceOf (g : Graph) (n : String) : String :=
  match g.nodeAttr n with
  | some a => a.source
  | none => "unknown"

def Graph.colorOfNode (g : Graph) (n : String) : String :=
  match g.nodeAttr n with
  | some a => a.color
  | none => "#9ca3af"

def Graph.borderOfNode (g : Graph) (n : String) : String :=
  match g.nodeAttr n with
  | some a => a.border_color
  | none => "#6b7280"

def Graph.signalRoleOf (g : Graph) (n : String) : Option String :=
  (g.nodeAttr n).bind (fun a => a.signal_role)

/-- `edge_data.get("weight", 0.5)` for an existing edge. -/
def Graph.weightOf (g : Graph) (a b : String) : ℚ :=
  match g.edgeAttr (a, b) with
  | some e => e.weight
  | none => 1/2

/-- Successor list of a node, in edge insertion order
(`list(graph.neighbors(n))` on a `DiGraph`). -/
def Graph.succList (g : Graph) (n : String) : List String :=
  (g.edgeIds.filter (fun e => e.1 = n)).map Prod.snd

/-- `graph.degree(n)` on a `DiGraph`: in-degree plus out-degree. -/
def Graph.degreeOf (g : Graph) (n : String) : ℕ :=
  g.edgeIds.countP (fun e => e.1 = n) + g.edgeIds.countP (fun e => e.2 = n)

/-- `nx.degree_centrality`: every node of a graph with at most one node has
centrality 1; otherwise `degree / (n - 1)`. -/
def Graph.degCent (g : Graph) (n : String) : ℚ :=
  if g.nodeIds.length ≤ 1 then 1
  else (g.degreeOf n : ℚ) / ((g.nodeIds.length : ℚ) - 1)

/-! ## Visual-style constants of `kg_builder.py` -/

def nodeColorOf (t : String) : String :=
  if t = "gene" then "#3b82f6" else if t = "disease" then "#ef4444"
  else if t = "drug" then "#10b981" else if t = "pathway" then "#8b5cf6"
  else if t = "mutation" then "#f59e0b" else if t = "cell_type" then "#06b6d4"
  else if t = "biomarker" then "#ec4899" else if t = "mechanism" then "#6366f1"
  else if t = "anatomical_site" then "#84cc16"
  else if t = "clinical_outcome" then "#14b8a6"
  else if t = "Gene" then "#3b82f6" else if t = "Disease" then "#ef4444"
  else if t = "Drug" then "#10b981" else if t = "Pathway" then "#8b5cf6"
  else if t = "CellType" then "#06b6d4"
  else "#9ca3af"

def nodeBorderOf (t : String) : String :=
  if t = "gene" then "#2563eb" else if t = "disease" then "#dc2626"
  else if t = "drug" then "#059669" else if t = "pathway" then "#7c3aed"
  else if t = "mutation" then "#d97706" else if t = "cell_type" then "#0891b2"
  else if t = "biomarker" then "#db2777" else if t = "mechanism" then "#4f46e5"
  else if t = "anatomical_site" then "#65a30d"
  else if t = "clinical_outcome" then "#0d9488"
  else "#6b7280"

def edgeColorTable (r : String) : Option String :=
  if r = "targets" then some "#10b981"
  else if r = "associated_with" then some "#6366f1"
  else if r = "mutated_in" then some "#f59e0b"
  else if r = "participates_in" then some "#8b5cf6"
  else if r = "expressed_in" then some "#06b6d4"
  else if r = "resistant_to" then some "#ef4444"
  else if r = "biomarker_for" then some "#ec4899"
  else if r = "drives" then some "#f97316"
  else if r = "inhibits" then some "#64748b"
  else if r = "synergizes_with" then some "#22c55e"
  else if r = "driver" then some "#f97316"
  else none

def edgeLabelTable (r : String) : Option String :=
  if r = "targets" then some "targets"
  else if r = "associated_with" then some "assoc."
  else if r = "mutated_in" then some "mutated in"
  else if r = "participates_in" then some "in pathway"
  else if r = "expressed_in" then some "expressed in"
  else if r = "resistant_to" then some "resistant to"
  else if r = "biomarker_for" then some "biomarker for"
  else if r = "drives" then some "drives"
  else if r = "inhibits" then some "inhibits"
  else if r = "synergizes_with" then some "synergy"
  else if r = "driver" then some "driver"
  else none

/-- `EDGE_COLORS.get(rel_type, "#94a3b8")`. -/
def edgeColorOf (r : String) : String := (edgeColorTable r).getD "#94a3b8"

/-- `EDGE_LABELS.get(rel_type, rel_type.replace("_", " "))` (used by
`add_relations`). -/
def edgeLabelOf (r : String) : String :=
  (edgeLabelTable r).getD (replaceChar r '_' ' ')

/-- `EDGE_LABELS.get(rel, rel)` (used by `add_opentargets_associations`:
the default is the raw relation, not underscore-stripped). -/
def edgeLabelOrSelf (r : String) : String := (edgeLabelTable r).getD r

def BASE_RADIUS : ℚ := 22
def MAX_RADIUS : ℚ := 38

/-! ## Builder helpers -/

/-- `_normalise_type` of `kg_builder.py`. -/
def normaliseType (raw : String) : String :=
  if raw = "Gene" then "gene" else if raw = "Disease" then "disease"
  else if raw = "Drug" then "drug" else if raw = "Pathway" then "pathway"
  else if raw = "CellType" then "cell_type" else if raw = "Mutation" then "mutation"
  else if raw = "Biomarker" then "biomarker" else if raw = "Mechanism" then "mechanism"
  else replaceChar (lowerStr raw) ' ' '_'

/-- Python `str.isupper` restricted to the ASCII entity names the builder
sees: some cased character exists and no cased character is lower case. -/
def isUpperStr (s : String) : Bool :=
  s.toList.any (fun c => c.isAlpha) && s.toList.all (fun c => ¬ c.isLower)

/-- `KnowledgeGraphBuilder._infer_type`: best-effort category from the raw
entity name. -/
def inferType (name : String) : String :=
  if isUpperStr name ∧ 2 ≤ name.length ∧ name.length ≤ 8
      ∧ name.toList.any (fun c => c.isAlpha) then "gene"
  else if name.length ≤ 10 ∧ name.toList.any (fun c => c.isDigit)
      ∧ (name.toList.headD '0').isAlpha then "mutation"
  else if (["cancer", "carcinoma", "adenocarcinoma", "melanoma", "lymphoma",
            "leukemia", "sarcoma", "glioma", "tumor"]).any
      (fun kw => containsStr (lowerStr name) kw) then "disease"
  else if (["signaling", "pathway", "cascade", "transduction"]).any
      (fun kw => containsStr (lowerStr name) kw) then "pathway"
  else if (["ib", "ab", "mab", "nib", "lib", "sib", "zumab"]).any
      (fun s => endsWithStr (lowerStr name) s) then "drug"
  else "mechanism"

/-- `KnowledgeGraphBuilder._ensure_node`. -/
def ensureNode (g : Graph) (name : String) : Graph :=
  if (g.nodeAttr name).isSome then g
  else
    g.addNode name
      { type_ := inferType name, label := name, confidence := 1/2,
        color := nodeColorOf (inferType name),
        border_color := nodeBorderOf (inferType name),
        source := "inferred", signal_role := none }

/-! ## Ingestion: entities -/

/-- A GLiNER2 entity item: a bare string or a dict carrying text and an
optional confidence (`{"text": ..., "confidence": ...}`). -/
inductive EItem where
  | str (s : String)
  | obj (text : String) (conf : Option ℚ)
  deriving DecidableEq, Repr

def entityText : EItem → String
  | .str s => s
  | .obj t _ => t

/-- `_entity_confidence`: dicts default to 0.7, bare strings are 0.7. -/
def entityConf : EItem → ℚ
  | .str _ => 7/10
  | .obj _ c => c.getD (7/10)

/-- `KnowledgeGraphBuilder.add_entities`; returns the graph and the count of
newly created nodes. -/
def addEntities (g : Graph) (entities : List (String × List EItem)) : Graph × ℕ :=
  entities.foldl
    (fun acc kv =>
      let normType := normaliseType kv.1
      kv.2.foldl
        (fun acc2 item =>
          let text := entityText item
          let conf := entityConf item
          match acc2.1.nodeAttr text with
          | some a =>
              if a.confidence < conf then
                (acc2.1.setNodeAttr text { a with confidence := conf }, acc2.2)
              else acc2
          | none =>
              (acc2.1.addNode text
                { type_ := normType, label := text, confidence := conf,
                  color := nodeColorOf normType,
                  border_color := nodeBorderOf normType,
                  source := "gliner2", signal_role := none }, acc2.2 + 1))
        acc)
    (g, 0)

/-! ## Ingestion: relations -/

/-- One endpoint of a relation dict: a bare string or
`{"text": ..., "confidence": ...}` (missing text reads as `""`). -/
inductive EndP where
  | str (s : String)
  | obj (text : String) (conf : Option ℚ)
  deriving DecidableEq, Repr

def endpText : EndP → String
  | .str s => s
  | .obj t _ => t

def endpConf : EndP → ℚ
  | .str _ => 7/10
  | .obj _ c => c.getD (7/10)

/-- A relation item: a `(head, tail)` pair, a `{head, tail}` dict, or an
unparseable value. -/
inductive RelItem where
  | pair (h t : String)
  | dict (head tail : EndP)
  | other
  deriving DecidableEq, Repr

/-- `KnowledgeGraphBuilder._parse_relation_item`. -/
def parseRelationItem : RelItem → String × String × ℚ × ℚ
  | .pair h t => (h, t, 7/10, 7/10)
  | .dict hd tl => (endpText hd, endpText tl, endpConf hd, endpConf tl)
  | .other => ("", "", 0, 0)

/-- Process one relation item of `add_relations` (the loop body); returns
the updated graph and the increment to the added-edge counter. -/
def addRelationItem (g : Graph) (relType : String) (item : RelItem) : Graph × ℕ :=
  let p := parseRelationItem item
  let head := p.1
  let tail := p.2.1
  let hConf := p.2.2.1
  let tConf := p.2.2.2
  if head = "" ∨ tail = "" then (g, 0)
  else
    let avgConf := (hConf + tConf) / 2
    let g1 := ensureNode g head
    let g2 := ensureNode g1 tail
    match g2.edgeAttr (head, tail) with
    | some e =>
        if e.weight < avgConf then
          (g2.setEdgeAttr (head, tail)
            { e with weight := avgConf, relation := relType }, 0)
        else (g2, 0)
    | none =>
        (g2.addEdge (head, tail)
          { weight := pyRound avgConf 3, relation := relType,
            label := edgeLabelOf relType, color := edgeColorOf relType,
            source := "gliner2", signal_direction := none }, 1)

/-- `KnowledgeGraphBuilder.add_relations`; returns the graph and the count
of newly created edges. -/
def addRelations (g : Graph) (relations : List (String × List RelItem)) : Graph × ℕ :=
  relations.foldl
    (fun acc kv =>
      kv.2.foldl
        (fun acc2 item =>
          let r := addRelationItem acc2.1 kv.1 item
          (r.1, acc2.2 + r.2))
        acc)
    (g, 0)

/-! ## Ingestion: OpenTargets associations -/

/-- An OpenTargets neighbour record `{id, type, score, relation}` with the
optional fields of `add_opentargets_associations`. -/
structure OTNeighbor where
  id : String
  type_ : Option String := none
  score : Option ℚ := none
  relation : Option String := none
  deriving DecidableEq, Repr

/-- Seed-node attributes created when the seed is absent. -/
def otSeedAttrs (seedName seedType : String) : NodeAttrs :=
  let normSeed := normaliseType seedType
  { type_ := normSeed, label := seedName, confidence := 1,
    color := nodeColorOf normSeed, border_color := nodeBorderOf normSeed,
    source := "opentargets", signal_role := none }

/-- Loop body of `add_opentargets_associations`: ensure the neighbour node,
then the seed→neighbour edge when absent. -/
def otStep (seedName : String) (acc : Graph) (n : OTNeighbor) : Graph :=
  let nid := n.id
  let ntype := normaliseType (n.type_.getD "gene")
  let score := n.score.getD (1/2)
  let acc1 :=
    if (acc.nodeAttr nid).isSome then acc
    else acc.addNode nid
      { type_ := ntype, label := nid, confidence := score,
        color := nodeColorOf ntype, border_color := nodeBorderOf ntype,
        source := "opentargets", signal_role := none }
  if (acc1.edgeAttr (seedName, nid)).isSome then acc1
  else
    let rel := n.relation.getD "associated_with"
    acc1.addEdge (seedName, nid)
      { weight := pyRound score 3, relation := rel,
        label := edgeLabelOrSelf rel, color := edgeColorOf rel,
        source := "opentargets", signal_direction := none }

/-- `KnowledgeGraphBuilder.add_opentargets_associations`. -/
def addOpentargets (g : Graph) (seedName seedType : String)
    (neighbors : List OTNeighbor) : Graph :=
  neighbors.foldl (otStep seedName)
    (if (g.nodeAttr seedName).isSome then g
     else g.addNode seedName (otSeedAttrs seedName seedType))

/-! ## Activation ranker (`QueryAdaptiveRanker` of `ttt.py`) -/

/-- `self.learning_rate = 0.1`. -/
def LEARNING_RATE : ℚ := 1/10

/-- `self.decay = 0.85`. -/
def DECAY_FACTOR : ℚ := 17/20

/-- `self.steps = 5`. -/
def PROP_STEPS : ℕ := 5

/-- Step 1 of `rank`: seed score of a node = number of query terms that are
substrings of the lower-cased node label (term multiplicity counts). -/
def seedScore (g : Graph) (q : String) (n : String) : ℚ :=
  (((queryTerms q).countP
    (fun t => containsStr (lowerStr (g.labelOf n)) t) : ℕ) : ℚ)

/-- One propagation round: every score decays, then every node with a
positive previous score pushes `score·weight·lr` to each successor and
`score·weight·lr·0.5` to each predecessor.  The per-target accumulation of
the Python dict updates is the sum below. -/
def propagateOnce (g : Graph) (act : String → ℚ) : String → ℚ := fun m =>
  act m * DECAY_FACTOR +
  (g.nodeIds.map (fun node =>
    if 0 < act node then
      (if (g.edgeAttr (node, m)).isSome then
        act node * g.weightOf node m * LEARNING_RATE else 0) +
      (if (g.edgeAttr (m, node)).isSome then
        act node * g.weightOf m node * LEARNING_RATE * (1/2) else 0)
    else 0)).sum

def propagateN (g : Graph) : ℕ → (String → ℚ) → (String → ℚ)
  | 0, act => act
  | k + 1, act => propagateN g k (propagateOnce g act)

/-- Activation of each node after the fixed number of propagation rounds. -/
def finalAct (g : Graph) (q : String) : String → ℚ :=
  propagateN g PROP_STEPS (seedScore g q)

/-- `max(activations.values()) if activations else 1.0`. -/
def maxVal : List ℚ → ℚ
  | [] => 1
  | x :: xs => xs.foldl max x

/-- `max_score` of step 3 of `rank`. -/
def rankDenom (g : Graph) (q : String) : ℚ :=
  maxVal (g.nodeIds.map (finalAct g q))

/-- The normalised score of one node (step 3 of `rank`). -/
def rankVal (g : Graph) (q : String) (n : String) : ℚ :=
  if 0 < rankDenom g q then pyRound (finalAct g q n / rankDenom g q) 4
  else finalAct g q n

/-- `QueryAdaptiveRanker.rank`: the returned dict, as an association list
keyed by the graph's nodes in insertion order. -/
def rank (g : Graph) (q : String) : List (String × ℚ) :=
  g.nodeIds.map (fun n => (n, rankVal g q n))

/-! ## Cross-domain booster (`CrossDomainBooster.boost`) -/

/-- Categories of a node's successors
(`graph.nodes[n].get("type", "unknown")` over `graph.neighbors(node)`). -/
def neighborTypes (g : Graph) (n : String) : List String :=
  (g.succList n).map (fun m => g.typeOf m)

/-- Shannon entropy (natural log, as `math.log`) of the category
distribution: outcomes are the distinct categories, frequencies the
neighbour counts. -/
noncomputable def entropyOf (types : List String) : ℝ :=
  (types.dedup.map (fun t =>
    let p : ℝ := ((types.count t : ℕ) : ℝ) / ((types.length : ℕ) : ℝ)
    if 0 < p then -(p * Real.log p) else 0)).sum

/-- `boost_factor = 1.0 + entropy * 0.2`. -/
noncomputable def boostFactor (g : Graph) (n : String) : ℝ :=
  1 + entropyOf (neighborTypes g n) * (2/10)

/-- Body of the `for node in graph.nodes()` loop of `boost`: skip nodes
absent from the activation dict, below the 0.05 floor, or without
successors; otherwise multiply the accumulating dict's entry. -/
noncomputable def boostStep (g : Graph) (act : List (String × ℝ))
    (acc : List (String × ℝ)) (node : String) : List (String × ℝ) :=
  match List.lookup node act with
  | none => acc
  | some s =>
      if s < 5/100 then acc
      else if g.succList node = [] then acc
      else acc.map (fun p => if p.1 = node then (p.1, p.2 * boostFactor g node) else p)

/-- `CrossDomainBooster.boost`: fold the loop body over the graph's nodes,
starting from a copy of the activation dict. -/
noncomputable def boost (g : Graph) (act : List (String × ℝ)) : List (String × ℝ) :=
  g.nodeIds.foldl (boostStep g act) act

/-! ## Robust ranker (`RobustRanker` of `ttt.py`) -/

/-- `statistics.mean`. -/
noncomputable def listMean (l : List ℝ) : ℝ := l.sum / (l.length : ℝ)

/-- `statistics.stdev` (sample standard deviation). -/
noncomputable def listStdev (l : List ℝ) : ℝ :=
  Real.sqrt ((l.map (fun x => (x - listMean l) ^ 2)).sum / ((l.length : ℝ) - 1))

/-- `_generate_variations`: the language-model call is an injected oracle
returning the parsed non-empty response lines, or `none` when the client is
missing or the call failed.  With a response the result is
`[query] + variations[:num_variations]` (num_variations = 3); otherwise
`[query]`. -/
def genVariations (varOracle : String → Option (List String)) (q : String) :
    List String :=
  match varOracle q with
  | none => [q]
  | some lines => q :: lines.take 3

/-- `RobustRanker.rank_robust` for a given variation list: run the plain
ranker per variation, aggregate per node `mean − 0.5·stdev`, keep only
positive aggregates (rounded to 4 places).  The Python iteration order over
the key set is unspecified; it is modelled as node insertion order. -/
noncomputable def rankRobustOn (g : Graph) (variations : List String) :
    List (String × ℝ) :=
  let alls := variations.map (fun q => rank g q)
  g.nodeIds.filterMap (fun n =>
    let scores : List ℝ := alls.map (fun a => (((List.lookup n a).getD 0 : ℚ) : ℝ))
    let meanScore := listMean scores
    let stdDev := if 1 < scores.length then listStdev scores else 0
    let robust := meanScore - (1/2) * stdDev
    if 0 < robust then some (n, pyRoundR robust 4) else none)

/-- `rank_robust` in the degraded no-client configuration
(`_generate_variations` returns `[query]`). -/
noncomputable def rankRobustNoClient (g : Graph) (q : String) : List (String × ℝ) :=
  rankRobustOn g (genVariations (fun _ => none) q)

/-! ## The reflective loop (`NeuroSymbolicLoop` of `ttt.py`) -/

/-- One trace record (`context.append({...})`). -/
structure DTCtx where
  query : String
  top_nodes : List String
  rationale : String

/-- The final result payload `{"activations": ..., "trace": ...}`. -/
structure DTResult where
  activations : List (String × ℝ)
  trace : List DTCtx

/-- `cumulative_activations[n] = max(cumulative_activations.get(n, 0), s)`. -/
def upsertMax (cum : List (String × ℝ)) (n : String) (s : ℝ) : List (String × ℝ) :=
  if (List.lookup n cum).isSome then
    cum.map (fun p => if p.1 = n then (p.1, max p.2 s) else p)
  else cum ++ [(n, max 0 s)]

def mergeMax (cum : List (String × ℝ)) (results : List (String × ℝ)) :
    List (String × ℝ) :=
  results.foldl (fun c p => upsertMax c p.1 p.2) cum

/-- One round of the loop of `run_deep_think_stream`: robust ranking,
boosting, merging into the cumulative map, reflection, trace append.
Returns `(reflection output, new trace, new cumulative map)`. -/
noncomputable def deepThinkRound (g : Graph)
    (varOracle : String → Option (List String))
    (reflectOracle : List (String × ℝ) → List DTCtx → String × String)
    (q : String) (ctx : List DTCtx) (cum : List (String × ℝ)) :
    (String × String) × List DTCtx × List (String × ℝ) :=
  let results := boost g (rankRobustOn g (genVariations varOracle q))
  let cum2 := mergeMax cum results
  let reflOut := reflectOracle results ctx
  (reflOut,
   ctx ++ [{ query := q, top_nodes := (results.map Prod.fst).take 5,
             rationale := reflOut.2 }],
   cum2)

/-- The `for step in range(max_steps)` loop of `run_deep_think_stream`,
recursing on the remaining step budget.  `varOracle` abstracts the
language-model variation call, `reflectOracle` abstracts `llm_reflect`
(the arguments it inspects are the round's results and the trace so far;
it returns `(next_query, rationale)`). -/
noncomputable def deepThinkLoop (g : Graph)
    (varOracle : String → Option (List String))
    (reflectOracle : List (String × ℝ) → List DTCtx → String × String) :
    ℕ → String → List DTCtx → List (String × ℝ) → DTResult
  | 0, _, ctx, cum => { activations := cum, trace := ctx }
  | k + 1, q, ctx, cum =>
      let r := deepThinkRound g varOracle reflectOracle q ctx cum
      if r.1.1 = "TERMINATE" ∨ r.1.1 = "" then
        { activations := r.2.2, trace := r.2.1 }
      else deepThinkLoop g varOracle reflectOracle k r.1.1 r.2.1 r.2.2

/-- `NeuroSymbolicLoop.run_deep_think` (the streaming variant yields the
same final `result` event). -/
noncomputable def runDeepThink (g : Graph)
    (varOracle : String → Option (List String))
    (reflectOracle : List (String × ℝ) → List DTCtx → String × String)
    (initialQuery : String) (maxSteps : ℕ) : DTResult :=
  deepThinkLoop g varOracle reflectOracle maxSteps initialQuery [] []

/-! ## Serialisation (`KnowledgeGraphBuilder.serialise`)

`compute_layout` runs `nx.spring_layout` (a seeded pseudo-random numeric
simulation); its positions enter `serialise` only as data, so they are
supplied as an opaque `pos` function. -/

structure SNode where
  id : String
  type_ : String
  label : String
  color : String
  border_color : String
  confidence : ℚ
  radius : ℚ
  x : ℚ
  y : ℚ
  degree : ℕ
  source : String
  glow : Bool
  signal_role : Option String
  deriving DecidableEq, Repr

structure SLink where
  source : String
  target : String
  relation : String
  label : String
  weight : ℚ
  color : String
  thickness : ℚ
  source_data : String
  animated : Bool
  signal_direction : Option String
  deriving DecidableEq, Repr

structure SStats where
  total_nodes : ℕ
  total_edges : ℕ
  entity_types : List (String × ℕ)
  relation_types : List (String × ℕ)
  sources : List (String × ℕ)
  deriving DecidableEq, Repr

structure SLegend where
  type_ : String
  color : String
  count : ℕ
  label : String
  deriving DecidableEq, Repr

structure SPayload where
  nodes : List SNode
  links : List SLink
  stats : SStats
  legend : List SLegend
  deriving DecidableEq, Repr

/-- Increment a counter dict entry (Python `d[k] = d.get(k, 0) + 1`). -/
def bumpCount (l : List (String × ℕ)) (k : String) : List (String × ℕ) :=
  if (List.lookup k l).isSome then
    l.map (fun p => if p.1 = k then (p.1, p.2 + 1) else p)
  else l ++ [(k, 1)]

/-- `sorted(type_counts.items(), key=lambda x: -x[1])`: stable sort by
descending count (insertion sort). -/
def insertByCount (p : String × ℕ) : List (String × ℕ) → List (String × ℕ)
  | [] => [p]
  | q :: rest => if q.2 < p.2 then p :: q :: rest else q :: insertByCount p rest

def sortCountDesc (l : List (String × ℕ)) : List (String × ℕ) :=
  l.foldr insertByCount []

def typeDisplayTable (t : String) : Option String :=
  if t = "gene" then some "Gene / Target"
  else if t = "disease" then some "Disease"
  else if t = "drug" then some "Drug / Compound"
  else if t = "pathway" then some "Signaling Pathway"
  else if t = "mutation" then some "Mutation"
  else if t = "cell_type" then some "Cell Type"
  else if t = "biomarker" then some "Biomarker"
  else if t = "mechanism" then some "Mechanism"
  else if t = "anatomical_site" then some "Anatomical Site"
  else if t = "clinical_outcome" then some "Clinical Outcome"
  else none

def capitalizeWord (w : List Char) : List Char :=
  match w with
  | [] => []
  | c :: cs => c.toUpper :: cs

/-- `t.replace("_", " ").title()`. -/
def titleCase (s : String) : String :=
  String.mk (List.intercalate [' ']
    ((splitChars (fun c => c = ' ') s.toList).map capitalizeWord))

def typeDisplayOf (t : String) : String :=
  (typeDisplayTable t).getD (titleCase (replaceChar t '_' ' '))

/-- Node record emitted by `serialise`. -/
def mkSNode (g : Graph) (pos : String → ℚ × ℚ) (n : String) : SNode :=
  let conf := g.confOf n
  let cent := g.degCent n
  let importance := (4/10) * cent + (6/10) * conf
  let radius := BASE_RADIUS + (MAX_RADIUS - BASE_RADIUS) * importance
  { id := n, type_ := g.typeOf n, label := g.labelOf n,
    color := g.colorOfNode n, border_color := g.borderOfNode n,
    confidence := pyRound conf 3, radius := pyRound radius 1,
    x := (pos n).1, y := (pos n).2, degree := g.degreeOf n,
    source := g.sourceOf n, glow := decide ((4/5 : ℚ) < conf),
    signal_role := g.signalRoleOf n }

def Graph.relOfEdge (g : Graph) (e : String × String) : String :=
  match g.edgeAttr e with
  | some a => a.relation
  | none => "associated_with"

def Graph.weightOfEdge (g : Graph) (e : String × String) : ℚ :=
  match g.edgeAttr e with
  | some a => a.weight
  | none => 1/2

def Graph.labelOfEdge (g : Graph) (e : String × String) : String :=
  match g.edgeAttr e with
  | some a => a.label
  | none => replaceChar (g.relOfEdge e) '_' ' '

def Graph.colorOfEdge (g : Graph) (e : String × String) : String :=
  match g.edgeAttr e with
  | some a => a.color
  | none => "#94a3b8"

def Graph.sourceOfEdge (g : Graph) (e : String × String) : String :=
  match g.edgeAttr e with
  | some a => a.source
  | none => "unknown"

def Graph.sigDirOfEdge (g : Graph) (e : String × String) : Option String :=
  (g.edgeAttr e).bind (fun a => a.signal_direction)

/-- Link record emitted by `serialise` (thickness `1 + weight·4`). -/
def mkSLink (g : Graph) (e : String × String) : SLink :=
  let w := g.weightOfEdge e
  { source := e.1, target := e.2, relation := g.relOfEdge e,
    label := g.labelOfEdge e, weight := pyRound w 3,
    color := g.colorOfEdge e, thickness := pyRound (1 + w * 4) 1,
    source_data := g.sourceOfEdge e, animated := decide ((4/5 : ℚ) < w),
    signal_direction := g.sigDirOfEdge e }

/-- The empty-graph payload returned before any other work. -/
def emptyPayload : SPayload :=
  { nodes := [], links := [],
    stats := { total_nodes := 0, total_edges := 0, entity_types := [],
               relation_types := [], sources := [] },
    legend := [] }

/-- `KnowledgeGraphBuilder.serialise`. -/
def serialise (g : Graph) (pos : String → ℚ × ℚ) : SPayload :=
  if g.nodeIds.length = 0 then emptyPayload
  else
    let typeCounts := g.nodeIds.foldl (fun acc n => bumpCount acc (g.typeOf n)) []
    let sourceCounts := g.nodeIds.foldl (fun acc n => bumpCount acc (g.sourceOf n)) []
    let relCounts := g.edgeIds.foldl (fun acc e => bumpCount acc (g.relOfEdge e)) []
    { nodes := g.nodeIds.map (mkSNode g pos),
      links := g.edgeIds.map (mkSLink g),
      stats := { total_nodes := g.nodeIds.length, total_edges := g.edgeIds.length,
                 entity_types := typeCounts, relation_types := relCounts,
                 sources := sourceCounts },
      legend := (sortCountDesc typeCounts).map (fun p =>
        { type_ := p.1, color := nodeColorOf p.1, count := p.2,
          label := typeDisplayOf p.1 }) }

/-! ## State-threaded views of the ranking subsystem.

None of `rank`, `boost`, `rank_robust` performs a mutating operation on the
graph object in the Python source (they only call `nodes`, `neighbors`,
`predecessors`, `get_edge_data` and build fresh dicts), so their
state-threaded embeddings return the graph component unchanged. -/

def rankThreaded (g : Graph) (q : String) : Graph × List (String × ℚ) :=
  (g, rank g q)

noncomputable def boostThreaded (g : Graph) (act : List (String × ℝ)) :
    Graph × List (String × ℝ) :=
  (g, boost g act)

noncomputable def rankRobustThreaded (g : Graph) (variations : List String) :
    Graph × List (String × ℝ) :=
  (g, rankRobustOn g variations)

/-! ## Small facts about the graph operations -/

@[simp] theorem addNode_edgeAttr (g : Graph) (n : String) (a : NodeAttrs) :
    (g.addNode n a).edgeAttr = g.edgeAttr := rfl

@[simp] theorem addNode_edgeIds (g : Graph) (n : String) (a : NodeAttrs) :
    (g.addNode n a).edgeIds = g.edgeIds := rfl

@[simp] theorem addEdge_nodeAttr (g : Graph) (e : String × String) (a : EdgeAttrs) :
    (g.addEdge e a).nodeAttr = g.nodeAttr := rfl

@[simp] theorem addEdge_nodeIds (g : Graph) (e : String × String) (a : EdgeAttrs) :
    (g.addEdge e a).nodeIds = g.nodeIds := rfl

@[simp] theorem addEdge_edgeIds (g : Graph) (e : String × String) (a : EdgeAttrs) :
    (g.addEdge e a).edgeIds = g.edgeIds ++ [e] := rfl

@[simp] theorem addEdge_edgeAttr_self (g : Graph) (e : String × String) (a : EdgeAttrs) :
    (g.addEdge e a).edgeAttr e = some a := by
  simp [Graph.addEdge]

@[simp] theorem setEdgeAttr_nodeAttr (g : Graph) (e : String × String) (a : EdgeAttrs) :
    (g.setEdgeAttr e a).nodeAttr = g.nodeAttr := rfl

@[simp] theorem setEdgeAttr_edgeIds (g : Graph) (e : String × String) (a : EdgeAttrs) :
    (g.setEdgeAttr e a).edgeIds = g.edgeIds := rfl

@[simp] theorem setEdgeAttr_edgeAttr_self (g : Graph) (e : String × String) (a : EdgeAttrs) :
    (g.setEdgeAttr e a).edgeAttr e = some a := by
  simp [Graph.setEdgeAttr]

@[simp] theorem ensureNode_edgeAttr (g : Graph) (n : String) :
    (ensureNode g n).edgeAttr = g.edgeAttr := by
  unfold ensureNode
  split <;> rfl

@[simp] theorem ensureNode_edgeIds (g : Graph) (n : String) :
    (ensureNode g n).edgeIds = g.edgeIds := by
  unfold ensureNode
  split <;> rfl

/-! ## C7: the reflective loop is bounded -/

theorem deepThinkRound_trace_len (g : Graph)
    (vo : String → Option (List String))
    (ro : List (String × ℝ) → List DTCtx → String × String)
    (q : String) (ctx : List DTCtx) (cum : List (String × ℝ)) :
    (deepThinkRound g vo ro q ctx cum).2.1.length = ctx.length + 1 := by
  simp [deepThinkRound]

theorem deepThinkLoop_trace_le (g : Graph)
    (vo : String → Option (List String))
    (ro : List (String × ℝ) → List DTCtx → String × String) :
    ∀ (k : ℕ) (q : String) (ctx : List DTCtx) (cum : List (String × ℝ)),
      (deepThinkLoop g vo ro k q ctx cum).trace.length ≤ ctx.length + k := by
  intro k
  induction k with
  | zero =>
      intro q ctx cum
      simp [deepThinkLoop]
  | succ k ih =>
      intro q ctx cum
      rw [deepThinkLoop]
      split
      · simp [deepThinkRound_trace_len]
      · calc (deepThinkLoop g vo ro k _ _ _).trace.length
            ≤ (deepThinkRound g vo ro q ctx cum).2.1.length + k := ih _ _ _
          _ = ctx.length + 1 + k := by rw [deepThinkRound_trace_len]
          _ ≤ ctx.length + (k + 1) := by omega

/-- C7: for every graph, initial query and `max_steps`, the Deep Think loop
(`run_deep_think` / `run_deep_think_stream`) terminates — it is a total
function of the step budget — and the trace of its result has length at
most `max_steps`, whatever the critique oracle answers. -/
theorem claim7_loop_bounded (g : Graph)
    (vo : String → Option (List String))
    (ro : List (String × ℝ) → List DTCtx → String × String)
    (q : String) (maxSteps : ℕ) :
    (runDeepThink g vo ro q maxSteps).trace.length ≤ maxSteps := by
  have h := deepThinkLoop_trace_le g vo ro maxSteps q [] []
  simpa [runDeepThink] using h

/-! ## C8: the empty graph serialises to the well-formed empty payload -/

/-- C8: on the freshly constructed, never-populated graph, `serialise`
returns the payload with empty node and link lists, zero node and edge
totals, empty per-type/per-relation/per-source stats and an empty legend,
and `rank` returns the empty relevance map — no failure path. -/
theorem claim8_empty_graph (pos : String → ℚ × ℚ) (q : String) :
    serialise Graph.empty pos =
      { nodes := [], links := [],
        stats := { total_nodes := 0, total_edges := 0, entity_types := [],
                   relation_types := [], sources := [] },
        legend := [] } ∧
    rank Graph.empty q = [] :=
  ⟨rfl, rfl⟩

/-! ## C10: the ranking subsystem never mutates the graph -/

/-- C10: `rank`, `boost` and `rank_robust` leave the graph unchanged — the
state-threaded embeddings return exactly the input graph (node list,
node attributes, edge list and edge attributes included) alongside the
same scores the pure functions produce.  The Python bodies perform no
mutating graph operation, which the threaded definitions reflect. -/
theorem claim10_ranking_preserves_graph (g : Graph) (q : String)
    (act : List (String × ℝ)) (variations : List String) :
    (rankThreaded g q).1 = g ∧
    (rankThreaded g q).1.nodeIds = g.nodeIds ∧
    (rankThreaded g q).1.nodeAttr = g.nodeAttr ∧
    (rankThreaded g q).1.edgeIds = g.edgeIds ∧
    (rankThreaded g q).1.edgeAttr = g.edgeAttr ∧
    (rankThreaded g q).2 = rank g q ∧
    (boostThreaded g act).1 = g ∧
    (boostThreaded g act).2 = boost g act ∧
    (rankRobustThreaded g variations).1 = g ∧
    (rankRobustThreaded g variations).2 = rankRobustOn g variations :=
  ⟨rfl, rfl, rfl, rfl, rfl, rfl, rfl, rfl, rfl, rfl⟩

/-! ## C5: the seed node after `add_opentargets_associations` -/

theorem otStep_nodeAttr_seed (seedName : String) (acc : Graph) (n : OTNeighbor)
    (h : (acc.nodeAttr seedName).isSome) :
    (otStep seedName acc n).nodeAttr seedName = acc.nodeAttr seedName := by
  unfold otStep
  by_cases hnid : (acc.nodeAttr n.id).isSome
  · simp only [hnid, if_true]
    split
    · rfl
    · rfl
  · have hne : seedName ≠ n.id := by
      intro he
      rw [he] at h
      exact hnid h
    simp only [hnid, if_false]
    split_ifs <;> simp [Graph.addNode, Graph.addEdge, hne]

theorem foldl_otStep_seed (seedName : String) (ns : List OTNeighbor) :
    ∀ G : Graph, (G.nodeAttr seedName).isSome →
      (ns.foldl (otStep seedName) G).nodeAttr seedName = G.nodeAttr seedName := by
  induction ns with
  | nil =>
      intro G _
      rfl
  | cons n ns ih =>
      intro G h
      have hstep := otStep_nodeAttr_seed seedName G n h
      have h2 : ((otStep seedName G n).nodeAttr seedName).isSome := by
        rw [hstep]
        exact h
      calc (ns.foldl (otStep seedName) (otStep seedName G n)).nodeAttr seedName
          = (otStep seedName G n).nodeAttr seedName := ih _ h2
        _ = G.nodeAttr seedName := hstep

/-- C5 (amended): after `add_opentargets_associations(seed, ...)` the seed
node always exists; when it did not exist before the call it is created
with confidence 1.0, but when a node with the same id already existed its
attributes — its confidence included — are left untouched (the code only
adds the node `if not self.graph.has_node(seed_name)`). -/
theorem claim5_amended_seed_node (g : Graph) (seedName seedType : String)
    (ns : List OTNeighbor) :
    (addOpentargets g seedName seedType ns).nodeAttr seedName =
      some ((g.nodeAttr seedName).getD (otSeedAttrs seedName seedType)) := by
  unfold addOpentargets
  by_cases h : (g.nodeAttr seedName).isSome
  · rw [if_pos h, foldl_otStep_seed seedName ns g h]
    cases ho : g.nodeAttr seedName with
    | none =>
        rw [ho] at h
        simp at h
    | some a => simp
  · rw [if_neg h]
    have hset : (g.addNode seedName (otSeedAttrs seedName seedType)).nodeAttr seedName
        = some (otSeedAttrs seedName seedType) := by
      simp [Graph.addNode]
    rw [foldl_otStep_seed seedName ns _ (by rw [hset]; rfl), hset]
    cases ho : g.nodeAttr seedName with
    | none => simp
    | some a =>
        rw [ho] at h
        simp at h

/-- The pre-existing lower-confidence seed node of the C5 counterexample. -/
def gKras : Graph :=
  (addEntities Graph.empty [("gene", [EItem.obj "KRAS" (some (3/5))])]).1

/-- C5 counterexample: `add_opentargets_associations` on a graph already
holding the seed node at confidence 0.6 leaves that confidence at 0.6, not
1.0 — refuting the claim that the seed ends at confidence 1.0 even when a
lower-confidence node pre-existed. -/
theorem claim5_counterexample :
    ((addOpentargets gKras "KRAS" "gene" []).nodeAttr "KRAS").map
        NodeAttrs.confidence = some (3/5) ∧ (3/5 : ℚ) ≠ 1 := by
  constructor
  · rfl
  · norm_num

/-! ## C1: re-insertion of an edge with the same ordered pair -/

/-- The edge attributes created by the first insertion of an
`add_relations` item with explicit endpoint confidences. -/
def firstEdgeAttrs (r : String) (hc tc : ℚ) : EdgeAttrs :=
  { weight := pyRound ((hc + tc) / 2) 3, relation := r, label := edgeLabelOf r,
    color := edgeColorOf r, source := "gliner2", signal_direction := none }

theorem addRelations_single (g : Graph) (r : String) (i : RelItem) :
    (addRelations g [(r, [i])]).1 = (addRelationItem g r i).1 := rfl

/-- `add_relations` on a fresh ordered pair: both endpoint nodes are
ensured, then the edge is created with the rounded average confidence. -/
theorem addRelationItem_new (g : Graph) (r h t : String) (hc tc : ℚ)
    (hh : h ≠ "") (ht : t ≠ "") (hE : g.edgeAttr (h, t) = none) :
    (addRelationItem g r (RelItem.dict (.obj h (some hc)) (.obj t (some tc)))).1 =
      (ensureNode (ensureNode g h) t).addEdge (h, t) (firstEdgeAttrs r hc tc) := by
  unfold addRelationItem firstEdgeAttrs
  simp only [parseRelationItem, endpText, endpConf, Option.getD_some]
  rw [if_neg (by
    push_neg
    exact ⟨hh, ht⟩)]
  rw [show (ensureNode (ensureNode g h) t).edgeAttr (h, t) = none by
    rw [ensureNode_edgeAttr, ensureNode_edgeAttr]
    exact hE]

/-- `add_relations` on an existing ordered pair: only the weight and the
relation are rewritten, and only when the new average confidence is
strictly larger. -/
theorem addRelationItem_update (g : Graph) (r h t : String) (hc tc : ℚ)
    (e : EdgeAttrs) (hh : h ≠ "") (ht : t ≠ "") (hE : g.edgeAttr (h, t) = some e) :
    (addRelationItem g r (RelItem.dict (.obj h (some hc)) (.obj t (some tc)))).1 =
      if e.weight < (hc + tc) / 2 then
        (ensureNode (ensureNode g h) t).setEdgeAttr (h, t)
          { e with weight := (hc + tc) / 2, relation := r }
      else ensureNode (ensureNode g h) t := by
  unfold addRelationItem
  simp only [parseRelationItem, endpText, endpConf, Option.getD_some]
  rw [if_neg (by
    push_neg
    exact ⟨hh, ht⟩)]
  rw [show (ensureNode (ensureNode g h) t).edgeAttr (h, t) = some e by
    rw [ensureNode_edgeAttr, ensureNode_edgeAttr]
    exact hE]
  split
  · rename_i e2 heq
    injection heq with heq2
    subst heq2
    rw [apply_ite Prod.fst]
  · rename_i heq
    exact Option.noConfusion heq

/-- The graph after two `add_relations` insertions of the same ordered
pair `(h, t)`, with relation types `r1` then `r2` and explicit endpoint
confidences. -/
def twoInsert (g : Graph) (h t r1 r2 : String) (hc1 tc1 hc2 tc2 : ℚ) : Graph :=
  (addRelations
    (addRelations g [(r1, [RelItem.dict (.obj h (some hc1)) (.obj t (some tc1))])]).1
    [(r2, [RelItem.dict (.obj h (some hc2)) (.obj t (some tc2))])]).1

/-- Full characterisation of the double insertion: one edge entry for the
pair; weight the maximum of the stored (rounded) first weight and the raw
second weight; relation from the strictly-stronger insertion (ties keep
the first); label always from the first insertion. -/
theorem twoInsert_spec (g : Graph) (h t r1 r2 : String) (hc1 tc1 hc2 tc2 : ℚ)
    (hattr : g.edgeAttr (h, t) = none) (hmem : (h, t) ∉ g.edgeIds)
    (hh : h ≠ "") (ht : t ≠ "") :
    (twoInsert g h t r1 r2 hc1 tc1 hc2 tc2).edgeIds.count (h, t) = 1 ∧
    (twoInsert g h t r1 r2 hc1 tc1 hc2 tc2).edgeAttr (h, t) =
      some { weight := max (pyRound ((hc1 + tc1) / 2) 3) ((hc2 + tc2) / 2),
             relation := if pyRound ((hc1 + tc1) / 2) 3 < (hc2 + tc2) / 2
                         then r2 else r1,
             label := edgeLabelOf r1, color := edgeColorOf r1,
             source := "gliner2", signal_direction := none } := by
  have h1 : (addRelations g
      [(r1, [RelItem.dict (.obj h (some hc1)) (.obj t (some tc1))])]).1 =
      (ensureNode (ensureNode g h) t).addEdge (h, t) (firstEdgeAttrs r1 hc1 tc1) := by
    rw [addRelations_single, addRelationItem_new g r1 h t hc1 tc1 hh ht hattr]
  have hG1attr : ((ensureNode (ensureNode g h) t).addEdge (h, t)
      (firstEdgeAttrs r1 hc1 tc1)).edgeAttr (h, t) = some (firstEdgeAttrs r1 hc1 tc1) :=
    addEdge_edgeAttr_self _ _ _
  have h2 : (twoInsert g h t r1 r2 hc1 tc1 hc2 tc2) =
      (if (firstEdgeAttrs r1 hc1 tc1).weight < (hc2 + tc2) / 2 then
        (ensureNode (ensureNode ((ensureNode (ensureNode g h) t).addEdge (h, t)
            (firstEdgeAttrs r1 hc1 tc1)) h) t).setEdgeAttr (h, t)
          { (firstEdgeAttrs r1 hc1 tc1) with weight := (hc2 + tc2) / 2, relation := r2 }
      else ensureNode (ensureNode ((ensureNode (ensureNode g h) t).addEdge (h, t)
            (firstEdgeAttrs r1 hc1 tc1)) h) t) := by
    unfold twoInsert
    rw [h1, addRelations_single, addRelationItem_update _ r2 h t hc2 tc2 _ hh ht hG1attr]
  constructor
  · have hcount0 : g.edgeIds.count (h, t) = 0 := List.count_eq_zero.mpr hmem
    rw [h2]
    split
    · rw [setEdgeAttr_edgeIds, ensureNode_edgeIds, ensureNode_edgeIds, addEdge_edgeIds,
        ensureNode_edgeIds, ensureNode_edgeIds, List.count_append, hcount0]
      simp
    · rw [ensureNode_edgeIds, ensureNode_edgeIds, addEdge_edgeIds,
        ensureNode_edgeIds, ensureNode_edgeIds, List.count_append, hcount0]
      simp
  · rw [h2]
    unfold firstEdgeAttrs
    by_cases hlt : pyRound ((hc1 + tc1) / 2) 3 < (hc2 + tc2) / 2
    · rw [if_pos hlt, if_pos hlt, setEdgeAttr_edgeAttr_self,
        max_eq_right (le_of_lt hlt)]
    · rw [if_neg hlt, if_neg hlt, ensureNode_edgeAttr, ensureNode_edgeAttr,
        addEdge_edgeAttr_self, max_eq_left (not_lt.mp hlt)]

/-- C1 (amended): two insertions of the same ordered pair via
`add_relations` leave exactly one edge for the pair; its weight is the
maximum of the stored first weight (rounded to 3 places at creation) and
the second computed weight; its relation matches the strictly
higher-weight insertion (ties keep the first); its label, however, always
stays the one set by the first insertion — the update path rewrites only
`weight` and `relation`. -/
theorem claim1_amended_edge_merge (g : Graph) (h t r1 r2 : String)
    (hc1 tc1 hc2 tc2 : ℚ)
    (hattr : g.edgeAttr (h, t) = none) (hmem : (h, t) ∉ g.edgeIds)
    (hh : h ≠ "") (ht : t ≠ "") :
    (twoInsert g h t r1 r2 hc1 tc1 hc2 tc2).edgeIds.count (h, t) = 1 ∧
    (twoInsert g h t r1 r2 hc1 tc1 hc2 tc2).edgeAttr (h, t) =
      some { weight := max (pyRound ((hc1 + tc1) / 2) 3) ((hc2 + tc2) / 2),
             relation := if pyRound ((hc1 + tc1) / 2) 3 < (hc2 + tc2) / 2
                         then r2 else r1,
             label := edgeLabelOf r1, color := edgeColorOf r1,
             source := "gliner2", signal_direction := none } :=
  twoInsert_spec g h t r1 r2 hc1 tc1 hc2 tc2 hattr hmem hh ht

/-- C1 witness: the amended statement applied to the empty graph at the
concrete pair `("A", "B")` with weights 0.5 then 0.9. -/
theorem claim1_amended_edge_merge_witness :
    (Graph.empty.edgeAttr ("A", "B") = none ∧ ("A", "B") ∉ Graph.empty.edgeIds ∧
      ("A" : String) ≠ "" ∧ ("B" : String) ≠ "") ∧
    ((twoInsert Graph.empty "A" "B" "targets" "drives" (1/2) (1/2) (9/10) (9/10)).edgeIds.count
        ("A", "B") = 1 ∧
     (twoInsert Graph.empty "A" "B" "targets" "drives" (1/2) (1/2) (9/10) (9/10)).edgeAttr
        ("A", "B") =
      some { weight := max (pyRound ((1/2 + 1/2) / 2) 3) ((9/10 + 9/10) / 2),
             relation := if pyRound ((1/2 + 1/2) / 2) 3 < (9/10 + 9/10) / 2
                         then "drives" else "targets",
             label := edgeLabelOf "targets", color := edgeColorOf "targets",
             source := "gliner2", signal_direction := none }) :=
  ⟨⟨rfl, by decide, by decide, by decide⟩,
   claim1_amended_edge_merge Graph.empty "A" "B" "targets" "drives"
     (1/2) (1/2) (9/10) (9/10) rfl (by decide) (by decide) (by decide)⟩

/-- C1 counterexample: after inserting `("A","B")` as `targets` at weight
0.5 and re-inserting it as `drives` at weight 0.9, the stored relation is
`"drives"` (the higher-weight insertion) but the stored label is still
`"targets"`, not the higher-weight insertion's label `"drives"` — refuting
the claim that relation and label both match the higher-weight insertion. -/
theorem claim1_counterexample_label_stale :
    ((twoInsert Graph.empty "A" "B" "targets" "drives"
        (1/2) (1/2) (9/10) (9/10)).edgeAttr ("A", "B")).map EdgeAttrs.relation
      = some "drives" ∧
    ((twoInsert Graph.empty "A" "B" "targets" "drives"
        (1/2) (1/2) (9/10) (9/10)).edgeAttr ("A", "B")).map EdgeAttrs.label
      = some "targets" ∧
    edgeLabelOf "drives" = "drives" ∧ ("targets" : String) ≠ "drives" := by
  have hs := (twoInsert_spec Graph.empty "A" "B" "targets" "drives"
    (1/2) (1/2) (9/10) (9/10) rfl (by decide) (by decide) (by decide)).2
  have hlt : pyRound (((1:ℚ)/2 + 1/2) / 2) 3 < ((9:ℚ)/10 + 9/10) / 2 := by
    rw [pyRound_of_int (n := 500) (by norm_num)]
    norm_num
  rw [if_pos hlt] at hs
  rw [hs]
  refine ⟨rfl, ?_, by decide, by decide⟩
  show some (edgeLabelOf "targets") = some "targets"
  decide

/-! ## Facts about `maxVal` (Python's `max` over the activation values) -/

theorem le_foldl_max (xs : List ℚ) (a : ℚ) : a ≤ xs.foldl max a := by
  induction xs generalizing a with
  | nil => exact le_refl a
  | cons y ys ih =>
      rw [List.foldl_cons]
      exact le_trans (le_max_left a y) (ih (max a y))

theorem mem_le_foldl_max {xs : List ℚ} {x : ℚ} (a : ℚ) (h : x ∈ xs) :
    x ≤ xs.foldl max a := by
  induction xs generalizing a with
  | nil => cases h
  | cons y ys ih =>
      rw [List.foldl_cons]
      rcases List.mem_cons.mp h with rfl | hmem
      · exact le_trans (le_max_right a x) (le_foldl_max ys (max a x))
      · exact ih (max a y) hmem

theorem foldl_max_mem (xs : List ℚ) (a : ℚ) :
    xs.foldl max a = a ∨ xs.foldl max a ∈ xs := by
  induction xs generalizing a with
  | nil => exact Or.inl rfl
  | cons y ys ih =>
      rw [List.foldl_cons]
      rcases ih (max a y) with h | h
      · rcases max_choice a y with he | he
        · exact Or.inl (by rw [h, he])
        · exact Or.inr (by rw [h, he]; exact List.mem_cons_self _ _)
      · exact Or.inr (List.mem_cons_of_mem _ h)

theorem le_maxVal {l : List ℚ} {x : ℚ} (h : x ∈ l) : x ≤ maxVal l := by
  cases l with
  | nil => cases h
  | cons y ys =>
      rcases List.mem_cons.mp h with rfl | hmem
      · exact le_foldl_max ys x
      · exact mem_le_foldl_max y hmem

theorem maxVal_mem {l : List ℚ} (h : l ≠ []) : maxVal l ∈ l := by
  cases l with
  | nil => exact absurd rfl h
  | cons y ys =>
      rcases foldl_max_mem ys y with he | he
      · rw [show maxVal (y :: ys) = ys.foldl max y from rfl, he]
        exact List.mem_cons_self _ _
      · exact List.mem_cons_of_mem _ (by rw [show maxVal (y :: ys) = ys.foldl max y from rfl]; exact he)

/-! ## Sign facts about seeding and propagation -/

theorem weightOf_nonneg (g : Graph)
    (hW : ∀ a b w, g.edgeAttr (a, b) = some w → 0 ≤ w.weight) (a b : String) :
    0 ≤ g.weightOf a b := by
  unfold Graph.weightOf
  cases he : g.edgeAttr (a, b) with
  | none => norm_num
  | some w => exact hW a b w he

theorem seedScore_nonneg (g : Graph) (q : String) (n : String) :
    0 ≤ seedScore g q n := by
  unfold seedScore
  positivity

theorem propagateOnce_sum_nonneg (g : Graph) (act : String → ℚ)
    (hW : ∀ a b w, g.edgeAttr (a, b) = some w → 0 ≤ w.weight)
    (h : ∀ m, 0 ≤ act m) (m : String) :
    0 ≤ (g.nodeIds.map (fun node =>
      if 0 < act node then
        (if (g.edgeAttr (node, m)).isSome then
          act node * g.weightOf node m * LEARNING_RATE else 0) +
        (if (g.edgeAttr (m, node)).isSome then
          act node * g.weightOf m node * LEARNING_RATE * (1/2) else 0)
      else 0)).sum := by
  apply List.sum_nonneg
  intro x hx
  simp only [List.mem_map] at hx
  obtain ⟨node, _, rfl⟩ := hx
  have hlr : (0 : ℚ) ≤ LEARNING_RATE := by norm_num [LEARNING_RATE]
  split
  · apply add_nonneg
    · split
      · exact mul_nonneg (mul_nonneg (h node) (weightOf_nonneg g hW node m)) hlr
      · exact le_refl 0
    · split
      · exact mul_nonneg (mul_nonneg (mul_nonneg (h node)
          (weightOf_nonneg g hW m node)) hlr) (by norm_num)
      · exact le_refl 0
  · exact le_refl 0

theorem propagateOnce_nonneg (g : Graph) (act : String → ℚ)
    (hW : ∀ a b w, g.edgeAttr (a, b) = some w → 0 ≤ w.weight)
    (h : ∀ m, 0 ≤ act m) (m : String) :
    0 ≤ propagateOnce g act m := by
  unfold propagateOnce
  exact add_nonneg (mul_nonneg (h m) (by norm_num [DECAY_FACTOR]))
    (propagateOnce_sum_nonneg g act hW h m)

theorem propagateN_nonneg (g : Graph)
    (hW : ∀ a b w, g.edgeAttr (a, b) = some w → 0 ≤ w.weight) :
    ∀ (k : ℕ) (act : String → ℚ), (∀ m, 0 ≤ act m) →
      ∀ m, 0 ≤ propagateN g k act m := by
  intro k
  induction k with
  | zero => intro act h m; exact h m
  | succ k ih =>
      intro act h m
      exact ih (propagateOnce g act) (propagateOnce_nonneg g act hW h) m

theorem propagateOnce_pos (g : Graph) (act : String → ℚ)
    (hW : ∀ a b w, g.edgeAttr (a, b) = some w → 0 ≤ w.weight)
    (h : ∀ m, 0 ≤ act m) {n : String} (hn : 0 < act n) :
    0 < propagateOnce g act n := by
  unfold propagateOnce
  have hd : 0 < act n * DECAY_FACTOR :=
    mul_pos hn (by norm_num [DECAY_FACTOR])
  linarith [propagateOnce_sum_nonneg g act hW h n]

theorem propagateN_pos (g : Graph)
    (hW : ∀ a b w, g.edgeAttr (a, b) = some w → 0 ≤ w.weight) :
    ∀ (k : ℕ) (act : String → ℚ), (∀ m, 0 ≤ act m) →
      ∀ {n}, 0 < act n → 0 < propagateN g k act n := by
  intro k
  induction k with
  | zero => intro act _ n hn; exact hn
  | succ k ih =>
      intro act h n hn
      exact ih (propagateOnce g act) (propagateOnce_nonneg g act hW h)
        (propagateOnce_pos g act hW h hn)

/-! ## C2: normalisation of the relevance map -/

/-- C2: on a non-empty graph whose edge weights are non-negative (the data
model keeps them in [0,1]), every value `rank` returns lies in [0,1], and
as soon as one node receives a nonzero seed activation the returned map
attains the value exactly 1 (so its maximum is exactly 1.0). -/
theorem claim2_ranking_normalisation (g : Graph) (q : String)
    (hne : g.nodeIds ≠ [])
    (hW : ∀ a b w, g.edgeAttr (a, b) = some w → 0 ≤ w.weight) :
    (∀ p ∈ rank g q, 0 ≤ p.2 ∧ p.2 ≤ 1) ∧
    ((∃ n ∈ g.nodeIds, 0 < seedScore g q n) → ∃ p ∈ rank g q, p.2 = 1) := by
  have hnn : ∀ m, 0 ≤ finalAct g q m :=
    propagateN_nonneg g hW PROP_STEPS _ (seedScore_nonneg g q)
  constructor
  · intro p hp
    simp only [rank, List.mem_map] at hp
    obtain ⟨n, hn, rfl⟩ := hp
    have hle : finalAct g q n ≤ rankDenom g q :=
      le_maxVal (List.mem_map_of_mem _ hn)
    show 0 ≤ rankVal g q n ∧ rankVal g q n ≤ 1
    unfold rankVal
    by_cases hm : 0 < rankDenom g q
    · rw [if_pos hm]
      exact pyRound_mem_unitInterval 4 (div_nonneg (hnn n) (le_of_lt hm))
        ((div_le_one hm).mpr hle)
    · rw [if_neg hm]
      push_neg at hm
      exact ⟨hnn n, by linarith⟩
  · rintro ⟨n0, hn0, hseed⟩
    have hfpos : 0 < finalAct g q n0 :=
      propagateN_pos g hW PROP_STEPS _ (seedScore_nonneg g q) hseed
    have hm : 0 < rankDenom g q :=
      lt_of_lt_of_le hfpos (le_maxVal (List.mem_map_of_mem _ hn0))
    have hmm : rankDenom g q ∈ g.nodeIds.map (finalAct g q) :=
      maxVal_mem (by simpa using hne)
    obtain ⟨nstar, hstar, hval⟩ := List.mem_map.mp hmm
    refine ⟨(nstar, rankVal g q nstar), List.mem_map_of_mem _ hstar, ?_⟩
    show rankVal g q nstar = 1
    unfold rankVal
    rw [if_pos hm, hval, div_self (ne_of_gt hm), pyRound_one]

/-! ## A tiny concrete graph shared by the concrete instances: two isolated
nodes `A` and `B` ingested from extraction output. -/

def gTwo : Graph :=
  (addEntities Graph.empty [("gene", [EItem.str "A", EItem.str "B"])]).1

theorem gTwo_edgeAttr : gTwo.edgeAttr = fun _ => none := rfl

theorem seed_gTwo_A : seedScore gTwo "a" "A" = 1 := by
  have h : (queryTerms "a").countP
      (fun t => containsStr (lowerStr (gTwo.labelOf "A")) t) = 1 := by decide
  unfold seedScore
  rw [h]
  norm_num

theorem seed_gTwo_B : seedScore gTwo "a" "B" = 0 := by
  have h : (queryTerms "a").countP
      (fun t => containsStr (lowerStr (gTwo.labelOf "B")) t) = 0 := by decide
  unfold seedScore
  rw [h]
  norm_num

/-- C2 witness: the normalisation statement applied to the concrete
two-node graph with query `"a"` (node `A` seeds at 1). -/
theorem claim2_ranking_normalisation_witness :
    (gTwo.nodeIds ≠ [] ∧
     (∀ a b w, gTwo.edgeAttr (a, b) = some w → 0 ≤ w.weight) ∧
     (∃ n ∈ gTwo.nodeIds, 0 < seedScore gTwo "a" n)) ∧
    ((∀ p ∈ rank gTwo "a", 0 ≤ p.2 ∧ p.2 ≤ 1) ∧
     ((∃ n ∈ gTwo.nodeIds, 0 < seedScore gTwo "a" n) →
        ∃ p ∈ rank gTwo "a", p.2 = 1)) := by
  have h1 : gTwo.nodeIds ≠ [] := by decide
  have h2 : ∀ a b w, gTwo.edgeAttr (a, b) = some w → 0 ≤ w.weight := by
    intro a b w hw
    rw [gTwo_edgeAttr] at hw
    exact Option.noConfusion hw
  have h3 : ∃ n ∈ gTwo.nodeIds, 0 < seedScore gTwo "a" n :=
    ⟨"A", by decide, by rw [seed_gTwo_A]; norm_num⟩
  exact ⟨⟨h1, h2, h3⟩, claim2_ranking_normalisation gTwo "a" h1 h2⟩

/-! ## C4: nodes separated from every seeded node stay at zero -/

/-- Adjacency in either direction (activation spreads along an edge both
ways in each round). -/
def uAdj (g : Graph) (a b : String) : Prop :=
  (g.edgeAttr (a, b)).isSome = true ∨ (g.edgeAttr (b, a)).isSome = true

/-- Reachability along edges traversed in either direction. -/
def UReach (g : Graph) : String → String → Prop :=
  Relation.ReflTransGen (uAdj g)

theorem propagateOnce_zero (g : Graph) (act : String → ℚ) (P : String → Prop)
    (hstep : ∀ u v, P u → uAdj g u v → P v)
    (hz : ∀ u, P u → act u = 0) :
    ∀ u, P u → propagateOnce g act u = 0 := by
  intro u hu
  unfold propagateOnce
  rw [hz u hu, zero_mul, zero_add]
  apply List.sum_eq_zero
  intro x hx
  simp only [List.mem_map] at hx
  obtain ⟨node, hnode, rfl⟩ := hx
  by_cases hpos : 0 < act node
  · rw [if_pos hpos]
    have h1 : ¬ ((g.edgeAttr (node, u)).isSome = true) := by
      intro hsome
      have hP : P node := hstep u node hu (Or.inr hsome)
      rw [hz node hP] at hpos
      exact lt_irrefl 0 hpos
    have h2 : ¬ ((g.edgeAttr (u, node)).isSome = true) := by
      intro hsome
      have hP : P node := hstep u node hu (Or.inl hsome)
      rw [hz node hP] at hpos
      exact lt_irrefl 0 hpos
    rw [if_neg h1, if_neg h2, add_zero]
  · rw [if_neg hpos]

theorem propagateN_zero (g : Graph) (P : String → Prop)
    (hstep : ∀ u v, P u → uAdj g u v → P v) :
    ∀ (k : ℕ) (act : String → ℚ), (∀ u, P u → act u = 0) →
      ∀ u, P u → propagateN g k act u = 0 := by
  intro k
  induction k with
  | zero => intro act hz u hu; exact hz u hu
  | succ k ih =>
      intro act hz u hu
      exact ih (propagateOnce g act) (propagateOnce_zero g act P hstep hz) u hu

/-- C4: a node whose label contains no query term and from which no seeded
node can be reached along edges followed in either direction keeps
relevance score exactly 0 in the map `rank` returns (zero is invariant
under every propagation round). -/
theorem claim4_unreachable_node_zero (g : Graph) (q : String) (v : String)
    (hterm : ∀ t ∈ queryTerms q, containsStr (lowerStr (g.labelOf v)) t = false)
    (hpath : ∀ s, 0 < seedScore g q s → ¬ UReach g v s) :
    ∀ p ∈ rank g q, p.1 = v → p.2 = 0 := by
  have hstep : ∀ u w, (∀ s, UReach g u s → seedScore g q s = 0) → uAdj g u w →
      (∀ s, UReach g w s → seedScore g q s = 0) := by
    intro u w hu ha s hs
    exact hu s (Relation.ReflTransGen.head ha hs)
  have hz0 : ∀ u, (∀ s, UReach g u s → seedScore g q s = 0) →
      seedScore g q u = 0 :=
    fun u hu => hu u Relation.ReflTransGen.refl
  have hPv : ∀ s, UReach g v s → seedScore g q s = 0 := by
    intro s hr
    by_contra hne
    have hpos : 0 < seedScore g q s :=
      lt_of_le_of_ne (seedScore_nonneg g q s) (Ne.symm hne)
    exact hpath s hpos hr
  have hfz : finalAct g q v = 0 :=
    propagateN_zero g (fun u => ∀ s, UReach g u s → seedScore g q s = 0)
      hstep PROP_STEPS _ hz0 v hPv
  intro p hp hpv
  simp only [rank, List.mem_map] at hp
  obtain ⟨n, hn, rfl⟩ := hp
  simp only at hpv
  subst hpv
  show rankVal g q n = 0
  unfold rankVal
  by_cases hm : 0 < rankDenom g q
  · rw [if_pos hm, hfz, zero_div, pyRound_zero]
  · rw [if_neg hm]
    exact hfz

/-- C4 witness: in the two isolated-node graph with query `"a"`, node `B`
matches no query term, reaches no seeded node, and scores 0. -/
theorem claim4_unreachable_node_zero_witness :
    ((∀ t ∈ queryTerms "a", containsStr (lowerStr (gTwo.labelOf "B")) t = false) ∧
     (∀ s, 0 < seedScore gTwo "a" s → ¬ UReach gTwo "B" s)) ∧
    (∀ p ∈ rank gTwo "a", p.1 = "B" → p.2 = 0) := by
  have h1 : ∀ t ∈ queryTerms "a",
      containsStr (lowerStr (gTwo.labelOf "B")) t = false := by decide
  have h2 : ∀ s, 0 < seedScore gTwo "a" s → ¬ UReach gTwo "B" s := by
    intro s hs hr
    have hBs : "B" = s := by
      rcases Relation.ReflTransGen.cases_head hr with h | ⟨c, hc, _⟩
      · exact h
      · rcases hc with hcc | hcc <;>
          (rw [gTwo_edgeAttr] at hcc; simp at hcc)
    rw [← hBs, seed_gTwo_B] at hs
    exact lt_irrefl 0 hs
  exact ⟨⟨h1, h2⟩, claim4_unreachable_node_zero gTwo "a" "B" h1 h2⟩

/-! ## C3: `rank_robust` without a language-model client -/

theorem lookup_map_key {L : List String} (V : String → ℚ) {n : String}
    (hn : n ∈ L) :
    List.lookup n (L.map (fun m => (m, V m))) = some (V n) := by
  induction L with
  | nil => cases hn
  | cons m L ih =>
      by_cases hnm : n = m
      · subst hnm
        simp [List.lookup]
      · have hbeq : (n == m) = false := by
          simp [hnm]
        rcases List.mem_cons.mp hn with rfl | hmem
        · exact absurd rfl hnm
        · simp [List.lookup, hbeq]
          exact ih hmem

theorem lookup_rank (g : Graph) (q : String) {n : String} (hn : n ∈ g.nodeIds) :
    List.lookup n (rank g q) = some (rankVal g q n) :=
  lookup_map_key _ hn

theorem filterMapCongr {α β : Type} {f g : α → Option β} :
    ∀ {l : List α}, (∀ a ∈ l, f a = g a) → l.filterMap f = l.filterMap g := by
  intro l
  induction l with
  | nil => intro _; rfl
  | cons a l ih =>
      intro h
      rw [List.filterMap_cons, List.filterMap_cons, h a (List.mem_cons_self a l),
        ih (fun b hb => h b (List.mem_cons_of_mem a hb))]

theorem listMean_single (x : ℝ) : listMean [x] = x := by
  simp [listMean]

theorem map_filter_pos_eq_filterMap (L : List String) (V : String → ℚ) :
    ((L.map (fun n => (n, V n))).filter (fun p => 0 < p.2)).map
        (fun p => (p.1, ((p.2 : ℚ) : ℝ))) =
      L.filterMap (fun n =>
        if 0 < V n then some (n, ((V n : ℚ) : ℝ)) else none) := by
  induction L with
  | nil => rfl
  | cons m L ih =>
      by_cases h : 0 < V m
      · simp [List.filter_cons, h, ih]
      · simp [List.filter_cons, h, ih]

/-- With a single query variation, the body of the aggregation loop of
`rank_robust` keeps a node exactly when its plain rank score is positive,
and then returns that score unchanged. -/
theorem rankRobustOn_single (g : Graph) (q : String) :
    rankRobustOn g [q] =
      ((rank g q).filter (fun p => 0 < p.2)).map
        (fun p => (p.1, ((p.2 : ℚ) : ℝ))) := by
  have hXbody : ∀ n ∈ g.nodeIds,
      (if 0 < listMean [(((List.lookup n (rank g q)).getD 0 : ℚ) : ℝ)] -
          (1/2) * (if 1 < ([(((List.lookup n (rank g q)).getD 0 : ℚ) : ℝ)]).length
                   then listStdev [(((List.lookup n (rank g q)).getD 0 : ℚ) : ℝ)]
                   else 0)
       then some (n, pyRoundR (listMean [(((List.lookup n (rank g q)).getD 0 : ℚ) : ℝ)] -
          (1/2) * (if 1 < ([(((List.lookup n (rank g q)).getD 0 : ℚ) : ℝ)]).length
                   then listStdev [(((List.lookup n (rank g q)).getD 0 : ℚ) : ℝ)]
                   else 0)) 4)
       else none) =
      (if 0 < rankVal g q n
       then some (n, pyRoundR ((rankVal g q n : ℚ) : ℝ) 4) else none) := by
    intro n hn
    rw [lookup_rank g q hn]
    simp only [Option.getD_some, List.length_cons, List.length_nil,
      listMean_single]
    norm_num
  have hL : rankRobustOn g [q] = g.nodeIds.filterMap (fun n =>
      if 0 < rankVal g q n
      then some (n, pyRoundR ((rankVal g q n : ℚ) : ℝ) 4) else none) := by
    unfold rankRobustOn
    simp only [List.map_cons, List.map_nil]
    exact filterMapCongr hXbody
  rw [hL, show rank g q = g.nodeIds.map (fun n => (n, rankVal g q n)) from rfl,
    map_filter_pos_eq_filterMap]
  by_cases hm : 0 < rankDenom g q
  · apply filterMapCongr
    intro n hn
    have hgrid : pyRound (rankVal g q n) 4 = rankVal g q n := by
      unfold rankVal
      rw [if_pos hm]
      exact pyRound_idem _ 4
    by_cases hv : 0 < rankVal g q n
    · rw [if_pos hv, if_pos hv, pyRoundR_ratCast, hgrid]
    · rw [if_neg hv, if_neg hv]
  · apply filterMapCongr
    intro n hn
    have hv : ¬ 0 < rankVal g q n := by
      unfold rankVal
      rw [if_neg hm]
      push_neg at hm ⊢
      exact le_trans (le_maxVal (List.mem_map_of_mem _ hn)) hm
    rw [if_neg hv, if_neg hv]

/-- C3 (amended): with the language-model client absent the variation set
degenerates to `[Q]`, and `rank_robust` then returns exactly the
positive-score restriction of the plain `rank(graph, Q)` map: every node
with a positive plain score keeps its score unchanged, while nodes whose
plain score is 0 are dropped from the returned dict (the `robust_score >
0` filter), so the two mappings are not identical in general. -/
theorem claim3_amended_robust_degradation (g : Graph) (q : String) :
    rankRobustNoClient g q =
      ((rank g q).filter (fun p => 0 < p.2)).map
        (fun p => (p.1, ((p.2 : ℚ) : ℝ))) :=
  rankRobustOn_single g q

/-! ### Evaluating `rank` on the concrete edgeless graph -/

theorem propagateOnce_no_edges (g : Graph) (hE : ∀ e, g.edgeAttr e = none)
    (act : String → ℚ) (m : String) :
    propagateOnce g act m = act m * DECAY_FACTOR := by
  unfold propagateOnce
  rw [show (g.nodeIds.map (fun node =>
      if 0 < act node then
        (if (g.edgeAttr (node, m)).isSome then
          act node * g.weightOf node m * LEARNING_RATE else 0) +
        (if (g.edgeAttr (m, node)).isSome then
          act node * g.weightOf m node * LEARNING_RATE * (1/2) else 0)
      else 0)).sum = 0 from List.sum_eq_zero ?_, add_zero]
  intro x hx
  simp only [List.mem_map] at hx
  obtain ⟨node, _, rfl⟩ := hx
  simp [hE]

theorem propagateN_no_edges (g : Graph) (hE : ∀ e, g.edgeAttr e = none) :
    ∀ (k : ℕ) (act : String → ℚ) (m : String),
      propagateN g k act m = act m * DECAY_FACTOR ^ k := by
  intro k
  induction k with
  | zero =>
      intro act m
      rw [pow_zero, mul_one]
      rfl
  | succ k ih =>
      intro act m
      show propagateN g k (propagateOnce g act) m = act m * DECAY_FACTOR ^ (k + 1)
      rw [ih (propagateOnce g act) m, propagateOnce_no_edges g hE act m,
        pow_succ]
      ring

theorem finalAct_gTwo_A : finalAct gTwo "a" "A" = DECAY_FACTOR ^ 5 := by
  unfold finalAct
  rw [propagateN_no_edges gTwo (fun e => congrFun gTwo_edgeAttr e) PROP_STEPS _ _,
    seed_gTwo_A, one_mul]
  exact rfl

theorem finalAct_gTwo_B : finalAct gTwo "a" "B" = 0 := by
  unfold finalAct
  rw [propagateN_no_edges gTwo (fun e => congrFun gTwo_edgeAttr e) PROP_STEPS _ _,
    seed_gTwo_B, zero_mul]

theorem rankDenom_gTwo : rankDenom gTwo "a" = DECAY_FACTOR ^ 5 := by
  unfold rankDenom
  rw [show gTwo.nodeIds = ["A", "B"] from rfl]
  simp only [List.map_cons, List.map_nil]
  rw [finalAct_gTwo_A, finalAct_gTwo_B]
  show [(0 : ℚ)].foldl max (DECAY_FACTOR ^ 5) = DECAY_FACTOR ^ 5
  simp only [List.foldl_cons, List.foldl_nil]
  exact max_eq_left (by unfold DECAY_FACTOR; norm_num)

theorem rank_gTwo : rank gTwo "a" = [("A", 1), ("B", 0)] := by
  have hpos : 0 < rankDenom gTwo "a" := by
    rw [rankDenom_gTwo]
    unfold DECAY_FACTOR
    norm_num
  have hvA : rankVal gTwo "a" "A" = 1 := by
    unfold rankVal
    rw [if_pos hpos, finalAct_gTwo_A, rankDenom_gTwo,
      div_self (by unfold DECAY_FACTOR; norm_num), pyRound_one]
  have hvB : rankVal gTwo "a" "B" = 0 := by
    unfold rankVal
    rw [if_pos hpos, finalAct_gTwo_B, zero_div, pyRound_zero]
  show gTwo.nodeIds.map (fun n => (n, rankVal gTwo "a" n)) = _
  rw [show gTwo.nodeIds = ["A", "B"] from rfl]
  simp only [List.map_cons, List.map_nil]
  rw [hvA, hvB]

/-- C3 counterexample: on the two-node graph with query `"a"`, the plain
`rank` map contains an entry for node `B` (with score 0) while the
no-client `rank_robust` map contains no entry for `B` at all — the two
mappings are not identical, refuting the claim as stated. -/
theorem claim3_counterexample_zero_dropped :
    (∃ p ∈ rank gTwo "a", p.1 = "B") ∧
    (∀ p ∈ rankRobustNoClient gTwo "a", p.1 ≠ "B") := by
  constructor
  · refine ⟨("B", 0), ?_, rfl⟩
    rw [rank_gTwo]
    simp
  · have hr : rankRobustNoClient gTwo "a" = [("A", (1 : ℝ))] := by
      rw [show rankRobustNoClient gTwo "a" = rankRobustOn gTwo ["a"] from rfl,
        rankRobustOn_single gTwo "a", rank_gTwo]
      norm_num [List.filter_cons, List.filter_nil, List.map_cons, List.map_nil]
    rw [hr]
    intro p hp
    rw [List.mem_singleton.mp hp]
    decide

/-! ## C6: the cross-domain booster -/

theorem eq_of_mem_of_nodupKeys {β : Type} {l : List (String × β)}
    (h : (l.map Prod.fst).Nodup) {p p2 : String × β}
    (hp : p ∈ l) (hp2 : p2 ∈ l) (hk : p.1 = p2.1) : p = p2 := by
  induction l with
  | nil => cases hp
  | cons a l ih =>
      rw [List.map_cons, List.nodup_cons] at h
      rcases List.mem_cons.mp hp with rfl | hpl
      · rcases List.mem_cons.mp hp2 with rfl | hp2l
        · rfl
        · exact absurd (hk ▸ List.mem_map_of_mem Prod.fst hp2l) h.1
      · rcases List.mem_cons.mp hp2 with rfl | hp2l
        · exact absurd (hk ▸ List.mem_map_of_mem Prod.fst hpl) h.1
        · exact ih h.2 hpl hp2l

theorem lookup_eq_of_mem {β : Type} {l : List (String × β)}
    (h : (l.map Prod.fst).Nodup) {p : String × β} (hp : p ∈ l) :
    List.lookup p.1 l = some p.2 := by
  induction l with
  | nil => cases hp
  | cons a l ih =>
      rw [List.map_cons, List.nodup_cons] at h
      rcases List.mem_cons.mp hp with rfl | hpl
      · simp [List.lookup]
      · have hne : p.1 ≠ a.1 := by
          intro he
          exact h.1 (he ▸ List.mem_map_of_mem Prod.fst hpl)
      
        have hbeq : (p.1 == a.1) = false := by simp [hne]
        simp only [List.lookup, hbeq]
        exact ih h.2 hpl

/-- The per-entry effect of `boost` on the dict entry `p`, when the loop
has run over the node list `L`. -/
noncomputable def boostEntry (g : Graph) (act : List (String × ℝ))
    (L : List String) (p : String × ℝ) : String × ℝ :=
  if p.1 ∈ L then
    match List.lookup p.1 act with
    | none => p
    | some s =>
        if s < 5/100 then p
        else if g.succList p.1 = [] then p
        else (p.1, p.2 * boostFactor g p.1)
  else p

theorem boostEntry_not_mem {g : Graph} {act : List (String × ℝ)}
    {L : List String} {p : String × ℝ} (h : p.1 ∉ L) :
    boostEntry g act L p = p := by
  unfold boostEntry
  rw [if_neg h]

theorem boostEntry_congr_mem {g : Graph} {act : List (String × ℝ)}
    {L L2 : List String} {p : String × ℝ} (h : p.1 ∈ L ↔ p.1 ∈ L2) :
    boostEntry g act L p = boostEntry g act L2 p := by
  unfold boostEntry
  by_cases hm : p.1 ∈ L
  · rw [if_pos hm, if_pos (h.mp hm)]
  · rw [if_neg hm, if_neg (fun h2 => hm (h.mpr h2))]

theorem boostStep_of_none {g : Graph} {act : List (String × ℝ)}
    (a : List (String × ℝ)) {n : String}
    (hl : List.lookup n act = none) : boostStep g act a n = a := by
  unfold boostStep
  rw [hl]

theorem boostStep_of_small {g : Graph} {act : List (String × ℝ)}
    (a : List (String × ℝ)) {n : String} {s : ℝ}
    (hl : List.lookup n act = some s) (hs : s < 5/100) :
    boostStep g act a n = a := by
  unfold boostStep
  rw [hl]
  simp only [if_pos hs]

theorem boostStep_of_nosucc {g : Graph} {act : List (String × ℝ)}
    (a : List (String × ℝ)) {n : String} {s : ℝ}
    (hl : List.lookup n act = some s) (hs : ¬ s < 5/100)
    (hsucc : g.succList n = []) : boostStep g act a n = a := by
  unfold boostStep
  rw [hl]
  simp only [if_neg hs, if_pos hsucc]

theorem boostStep_of_boost {g : Graph} {act : List (String × ℝ)}
    (a : List (String × ℝ)) {n : String} {s : ℝ}
    (hl : List.lookup n act = some s) (hs : ¬ s < 5/100)
    (hsucc : ¬ g.succList n = []) :
    boostStep g act a n =
      a.map (fun p => if p.1 = n then (p.1, p.2 * boostFactor g n) else p) := by
  unfold boostStep
  rw [hl]
  simp only [if_neg hs, if_neg hsucc]

theorem boost_foldl_char (g : Graph) (act : List (String × ℝ)) :
    ∀ (L : List String), L.Nodup → ∀ (a : List (String × ℝ)),
      L.foldl (boostStep g act) a = a.map (boostEntry g act L) := by
  intro L
  induction L with
  | nil =>
      intro _ a
      rw [List.foldl_nil]
      have : ∀ p : String × ℝ, boostEntry g act [] p = p := by
        intro p
        exact boostEntry_not_mem (List.not_mem_nil p.1)
      rw [funext this]
      exact (List.map_id a).symm
  | cons n L ih =>
      intro hnodup a
      have hn : n ∉ L := (List.nodup_cons.mp hnodup).1
      have hL : L.Nodup := (List.nodup_cons.mp hnodup).2
      rw [List.foldl_cons, ih hL]
      cases hlook : List.lookup n act with
      | none =>
          rw [boostStep_of_none a hlook]
          apply congrArg (a.map)
          funext p
          by_cases hp : p.1 = n
          · rw [boostEntry_not_mem (hp ▸ hn)]
            unfold boostEntry
            rw [if_pos (by rw [hp]; exact List.mem_cons_self _ _), hp, hlook]
          · exact boostEntry_congr_mem (by
              rw [List.mem_cons]
              constructor
              · intro h2; exact Or.inr h2
              · rintro (h2 | h2); exact absurd h2 hp; exact h2)
      | some s =>
          by_cases hs : s < 5/100
          · rw [boostStep_of_small a hlook hs]
            apply congrArg (a.map)
            funext p
            by_cases hp : p.1 = n
            · rw [boostEntry_not_mem (hp ▸ hn)]
              unfold boostEntry
              rw [if_pos (by rw [hp]; exact List.mem_cons_self _ _), hp, hlook]
              simp only [if_pos hs]
            · exact boostEntry_congr_mem (by
                rw [List.mem_cons]
                constructor
                · intro h2; exact Or.inr h2
                · rintro (h2 | h2); exact absurd h2 hp; exact h2)
          · by_cases hsucc : g.succList n = []
            · rw [boostStep_of_nosucc a hlook hs hsucc]
              apply congrArg (a.map)
              funext p
              by_cases hp : p.1 = n
              · rw [boostEntry_not_mem (hp ▸ hn)]
                unfold boostEntry
                rw [if_pos (by rw [hp]; exact List.mem_cons_self _ _), hp, hlook]
                simp only [if_neg hs, if_pos hsucc]
              · exact boostEntry_congr_mem (by
                  rw [List.mem_cons]
                  constructor
                  · intro h2; exact Or.inr h2
                  · rintro (h2 | h2); exact absurd h2 hp; exact h2)
            · rw [boostStep_of_boost a hlook hs hsucc, List.map_map]
              apply congrArg (a.map)
              funext p
              show boostEntry g act L
                (if p.1 = n then (p.1, p.2 * boostFactor g n) else p) =
                boostEntry g act (n :: L) p
              by_cases hp : p.1 = n
              · rw [if_pos hp, boostEntry_not_mem (by simpa using hp ▸ hn)]
                unfold boostEntry
                rw [if_pos (by rw [hp]; exact List.mem_cons_self _ _), hp, hlook]
                simp only [if_neg hs, if_neg hsucc]
              · rw [if_neg hp]
                exact boostEntry_congr_mem (by
                  rw [List.mem_cons]
                  constructor
                  · intro h2; exact Or.inr h2
                  · rintro (h2 | h2); exact absurd h2 hp; exact h2)

theorem boost_char (g : Graph) (act : List (String × ℝ)) (hg : g.nodeIds.Nodup) :
    boost g act = act.map (boostEntry g act g.nodeIds) :=
  boost_foldl_char g act g.nodeIds hg act

theorem boostEntry_key (g : Graph) (act : List (String × ℝ))
    (L : List String) (p : String × ℝ) : (boostEntry g act L p).1 = p.1 := by
  unfold boostEntry
  split
  · cases List.lookup p.1 act with
    | none => rfl
    | some s =>
        by_cases hs : s < 5/100
        · simp only [if_pos hs]
        · by_cases hsucc : g.succList p.1 = []
          · simp only [if_neg hs, if_pos hsucc]
          · simp only [if_neg hs, if_neg hsucc]
  · rfl

/-- If every neighbour category equals every other (a category-homogeneous
neighbourhood), the entropy is zero. -/
theorem entropyOf_homog {ts : List String}
    (h : ∀ t ∈ ts, ∀ t2 ∈ ts, t = t2) : entropyOf ts = 0 := by
  unfold entropyOf
  apply List.sum_eq_zero
  intro x hx
  simp only [List.mem_map] at hx
  obtain ⟨t, htd, rfl⟩ := hx
  have ht : t ∈ ts := List.mem_dedup.mp htd
  have hcount : ts.count t = ts.length := by
    rw [List.count_eq_length]
    intro b hb
    have heq := h t ht b hb
    simp [heq]
  have hlen : ts.length ≠ 0 := by
    intro h0
    rw [List.length_eq_zero] at h0
    subst h0
    cases ht
  have hp : ((ts.count t : ℕ) : ℝ) / ((ts.length : ℕ) : ℝ) = 1 := by
    rw [hcount]
    exact div_self (by exact_mod_cast hlen)
  rw [hp]
  norm_num

/-- C6 (amended): `boost` multiplies the score of each graph node whose
activation is at or above the 0.05 floor (the code tests `< 0.05`, so the
boundary value 0.05 is boosted too) and which has at least one successor,
by `1 + 0.2·entropy` of its successors' category distribution; every other
entry is unchanged; in particular an entry whose successor categories are
all equal (entropy 0) keeps exactly its input score. -/
theorem claim6_amended_boost (g : Graph) (act : List (String × ℝ))
    (hact : (act.map Prod.fst).Nodup) (hg : g.nodeIds.Nodup) :
    (∀ p ∈ act, p.1 ∈ g.nodeIds → ¬ p.2 < 5/100 → g.succList p.1 ≠ [] →
       ∀ r ∈ boost g act, r.1 = p.1 →
         r.2 = p.2 * (1 + entropyOf (neighborTypes g p.1) * (2/10))) ∧
    (∀ p ∈ act, (p.1 ∉ g.nodeIds ∨ p.2 < 5/100 ∨ g.succList p.1 = []) →
       ∀ r ∈ boost g act, r.1 = p.1 → r.2 = p.2) ∧
    (∀ p ∈ act, (∀ t ∈ neighborTypes g p.1, ∀ t2 ∈ neighborTypes g p.1, t = t2) →
       ∀ r ∈ boost g act, r.1 = p.1 → r.2 = p.2) := by
  have hentry : ∀ p ∈ act, ∀ r ∈ boost g act, r.1 = p.1 →
      r = boostEntry g act g.nodeIds p := by
    intro p hp r hr hk
    rw [boost_char g act hg] at hr
    obtain ⟨p2, hp2, hre⟩ := List.mem_map.mp hr
    have hk2 : p2.1 = p.1 := by
      rw [← boostEntry_key g act g.nodeIds p2, hre, hk]
    have : p2 = p := eq_of_mem_of_nodupKeys hact hp2 hp hk2
    rw [← hre, this]
  have hlook : ∀ p ∈ act, List.lookup p.1 act = some p.2 :=
    fun p hp => lookup_eq_of_mem hact hp
  refine ⟨?_, ?_, ?_⟩
  · intro p hp hmem hfloor hsucc r hr hk
    rw [hentry p hp r hr hk]
    unfold boostEntry
    rw [if_pos hmem, hlook p hp]
    simp only [if_neg hfloor, if_neg hsucc]
    rfl
  · intro p hp hcase r hr hk
    rw [hentry p hp r hr hk]
    unfold boostEntry
    rcases hcase with hmem | hfloor | hsucc
    · rw [if_neg hmem]
    · by_cases hmem : p.1 ∈ g.nodeIds
      · rw [if_pos hmem, hlook p hp]
        simp only [if_pos hfloor]
      · rw [if_neg hmem]
    · by_cases hmem : p.1 ∈ g.nodeIds
      · rw [if_pos hmem, hlook p hp]
        by_cases hfloor : p.2 < 5/100
        · simp only [if_pos hfloor]
        · simp only [if_neg hfloor, if_pos hsucc]
      · rw [if_neg hmem]
  · intro p hp hhom r hr hk
    rw [hentry p hp r hr hk]
    unfold boostEntry
    by_cases hmem : p.1 ∈ g.nodeIds
    · rw [if_pos hmem, hlook p hp]
      by_cases hfloor : p.2 < 5/100
      · simp only [if_pos hfloor]
      · by_cases hsucc : g.succList p.1 = []
        · simp only [if_neg hfloor, if_pos hsucc]
        · simp only [if_neg hfloor, if_neg hsucc]
          show p.2 * boostFactor g p.1 = p.2
          unfold boostFactor
          rw [entropyOf_homog hhom]
          ring
    · rw [if_neg hmem]

/-- C6 witness: the amended statement applied to the empty graph and the
singleton activation dict `{"A": 1}` (every entry unchanged). -/
theorem claim6_amended_boost_witness :
    (([(("A" : String), (1 : ℝ))].map Prod.fst).Nodup ∧
      Graph.empty.nodeIds.Nodup) ∧
    (∀ p ∈ [(("A" : String), (1 : ℝ))],
      (p.1 ∉ Graph.empty.nodeIds ∨ p.2 < 5/100 ∨ Graph.empty.succList p.1 = []) →
      ∀ r ∈ boost Graph.empty [(("A" : String), (1 : ℝ))], r.1 = p.1 → r.2 = p.2) :=
  ⟨⟨by decide, by decide⟩,
   (claim6_amended_boost Graph.empty [("A", (1 : ℝ))] (by decide) (by decide)).2.1⟩

/-- Concrete graph for the C6 counterexample: node `A` with two successors
of different categories (`B`: gene, `C`: disease). -/
def gBoost : Graph :=
  (addRelations
    (addEntities Graph.empty [("gene", [EItem.str "B"]), ("disease", [EItem.str "C"])]).1
    [("targets", [RelItem.pair "A" "B", RelItem.pair "A" "C"])]).1

theorem entropy_two_pos : 0 < entropyOf ["gene", "disease"] := by
  unfold entropyOf
  rw [show (["gene", "disease"] : List String).dedup = ["gene", "disease"]
      from by decide]
  simp only [List.map_cons, List.map_nil, List.sum_cons, List.sum_nil]
  rw [show (["gene", "disease"] : List String).count "gene" = 1 from by decide,
    show (["gene", "disease"] : List String).count "disease" = 1 from by decide,
    show (["gene", "disease"] : List String).length = 2 from rfl]
  have hp : (((1 : ℕ) : ℝ) / ((2 : ℕ) : ℝ)) = 1/2 := by norm_num
  rw [hp]
  have hpos : (0 : ℝ) < 1/2 := by norm_num
  rw [if_pos hpos]
  have hlog : Real.log (1/2) < 0 := Real.log_neg (by norm_num) (by norm_num)
  nlinarith

/-- C6 counterexample: with activation exactly 0.05 — not above the floor —
the code still boosts node `A` (its test is `< 0.05`), so the returned dict
differs from the input although the claim says every node not strictly
above 0.05 keeps its score unchanged. -/
theorem claim6_counterexample_boundary :
    boost gBoost [("A", (1/20 : ℝ))] ≠ [("A", (1/20 : ℝ))] := by
  intro hEq
  have hchar := boost_char gBoost [("A", (1/20 : ℝ))] (by decide)
  rw [hchar] at hEq
  have hmem : ("A" : String) ∈ gBoost.nodeIds := by decide
  have hlook : List.lookup "A" [(("A" : String), (1/20 : ℝ))] = some (1/20 : ℝ) := by
    simp [List.lookup]
  have hfloor : ¬ ((1/20 : ℝ) < 5/100) := by norm_num
  have hsucc : gBoost.succList "A" ≠ [] := by decide
  have hentry : boostEntry gBoost [("A", (1/20 : ℝ))] gBoost.nodeIds
      ("A", (1/20 : ℝ)) = ("A", (1/20 : ℝ) * boostFactor gBoost "A") := by
    unfold boostEntry
    rw [if_pos hmem, hlook]
    simp only [if_neg hfloor, if_neg hsucc]
  rw [List.map_cons, List.map_nil, hentry] at hEq
  have hv : (1/20 : ℝ) * boostFactor gBoost "A" = 1/20 :=
    congrArg Prod.snd (List.head_eq_of_cons_eq hEq)
  have hfac : boostFactor gBoost "A" = 1 := by
    have h20 : (1/20 : ℝ) ≠ 0 := by norm_num
    have h2 : (1/20 : ℝ) * boostFactor gBoost "A" = (1/20 : ℝ) * 1 := by
      rw [hv, mul_one]
    exact mul_left_cancel₀ h20 h2
  have hent : entropyOf (neighborTypes gBoost "A") = 0 := by
    unfold boostFactor at hfac
    linarith
  rw [show neighborTypes gBoost "A" = ["gene", "disease"] from by decide] at hent
  exact absurd hent (ne_of_gt entropy_two_pos)

/-! ## C9: node radii emitted by `serialise` -/

theorem le_pyRound {A : ℤ} {x : ℚ} (d : ℕ) (hA : (A : ℚ) / 10 ^ d ≤ x) :
    (A : ℚ) / 10 ^ d ≤ pyRound x d := by
  have hpow : (0 : ℚ) < 10 ^ d := by positivity
  have hA2 : (A : ℚ) ≤ x * 10 ^ d := by
    rw [div_le_iff₀ hpow] at hA
    exact hA
  unfold pyRound
  gcongr
  exact_mod_cast le_roundHalfEven hA2

theorem pyRound_le {B : ℤ} {x : ℚ} (d : ℕ) (hB : x ≤ (B : ℚ) / 10 ^ d) :
    pyRound x d ≤ (B : ℚ) / 10 ^ d := by
  have hpow : (0 : ℚ) < 10 ^ d := by positivity
  have hB2 : x * 10 ^ d ≤ (B : ℚ) := by
    rw [le_div_iff₀ hpow] at hB
    exact hB
  unfold pyRound
  gcongr
  exact_mod_cast roundHalfEven_le hB2

theorem serialise_nodes (g : Graph) (pos : String → ℚ × ℚ)
    (h : ¬ g.nodeIds.length = 0) :
    (serialise g pos).nodes = g.nodeIds.map (mkSNode g pos) := by
  unfold serialise
  rw [if_neg h]

theorem degCent_nonneg (g : Graph) (n : String) : 0 ≤ g.degCent n := by
  unfold Graph.degCent
  split
  · norm_num
  · apply div_nonneg
    · exact Nat.cast_nonneg _
    · rename_i hlen
      push_neg at hlen
      have h2 : (2 : ℚ) ≤ (g.nodeIds.length : ℚ) := by exact_mod_cast hlen
      linarith

/-- C9 (amended): whenever every node confidence lies in [0,1], every
radius emitted by `serialise` is at least `BASE_RADIUS = 22`; it is at most
`MAX_RADIUS = 38` whenever the node's digraph degree centrality is at most
1 — but a `DiGraph` degree counts both directions, so the centrality can
reach 2 (mutually-linked nodes) and the radius then exceeds 38. -/
theorem claim9_amended_radius_bounds (g : Graph) (pos : String → ℚ × ℚ)
    (hconf : ∀ n ∈ g.nodeIds, 0 ≤ g.confOf n ∧ g.confOf n ≤ 1) :
    ∀ rec ∈ (serialise g pos).nodes,
      BASE_RADIUS ≤ rec.radius ∧
      (g.degCent rec.id ≤ 1 → rec.radius ≤ MAX_RADIUS) := by
  intro rec hrec
  by_cases hlen : g.nodeIds.length = 0
  · unfold serialise at hrec
    rw [if_pos hlen] at hrec
    simp [emptyPayload] at hrec
  · rw [serialise_nodes g pos hlen] at hrec
    obtain ⟨n, hn, rfl⟩ := List.mem_map.mp hrec
    obtain ⟨hc0, hc1⟩ := hconf n hn
    have hcent0 : 0 ≤ g.degCent n := degCent_nonneg g n
    have hr : (mkSNode g pos n).radius = pyRound (BASE_RADIUS +
        (MAX_RADIUS - BASE_RADIUS) *
          ((4/10) * g.degCent n + (6/10) * g.confOf n)) 1 := rfl
    have hid : (mkSNode g pos n).id = n := rfl
    rw [hr, hid]
    constructor
    · have h1 : ((220 : ℤ) : ℚ) / 10 ^ 1 ≤ BASE_RADIUS +
          (MAX_RADIUS - BASE_RADIUS) *
            ((4/10) * g.degCent n + (6/10) * g.confOf n) := by
        unfold BASE_RADIUS MAX_RADIUS
        push_cast
        nlinarith
      calc BASE_RADIUS = ((220 : ℤ) : ℚ) / 10 ^ 1 := by
            unfold BASE_RADIUS
            norm_num
        _ ≤ _ := le_pyRound 1 h1
    · intro hcent1
      have h1 : BASE_RADIUS + (MAX_RADIUS - BASE_RADIUS) *
          ((4/10) * g.degCent n + (6/10) * g.confOf n) ≤
          ((380 : ℤ) : ℚ) / 10 ^ 1 := by
        unfold BASE_RADIUS MAX_RADIUS
        push_cast
        nlinarith
      calc pyRound _ 1 ≤ ((380 : ℤ) : ℚ) / 10 ^ 1 := pyRound_le 1 h1
        _ = MAX_RADIUS := by
            unfold MAX_RADIUS
            norm_num

/-- C9 witness: the amended bounds applied to the concrete two-node graph
(every confidence is 0.7 there). -/
theorem claim9_amended_radius_bounds_witness :
    (∀ n ∈ gTwo.nodeIds, 0 ≤ gTwo.confOf n ∧ gTwo.confOf n ≤ 1) ∧
    (∀ rec ∈ (serialise gTwo (fun _ => (400, 300))).nodes,
      BASE_RADIUS ≤ rec.radius ∧
      (gTwo.degCent rec.id ≤ 1 → rec.radius ≤ MAX_RADIUS)) := by
  have hconf : ∀ n ∈ gTwo.nodeIds, 0 ≤ gTwo.confOf n ∧ gTwo.confOf n ≤ 1 := by
    intro n hn
    have h2 : n = "A" ∨ n = "B" := by
      have h3 : n ∈ ["A", "B"] := hn
      simpa using h3
    rcases h2 with rfl | rfl
    · rw [show gTwo.confOf "A" = 7/10 from rfl]
      norm_num
    · rw [show gTwo.confOf "B" = 7/10 from rfl]
      norm_num
  exact ⟨hconf, claim9_amended_radius_bounds gTwo (fun _ => (400, 300)) hconf⟩

/-- The mutually-linked pair of the C9 counterexample. -/
def gMutual : Graph :=
  (addRelations Graph.empty
    [("targets", [RelItem.pair "A" "B", RelItem.pair "B" "A"])]).1

/-- C9 counterexample: in the graph with edges `A→B` and `B→A`, the degree
centrality of `A` is 2 (a `DiGraph` degree counts both directions), its
confidence is 0.5 (within [0,1]), and the emitted radius is
`22 + 16·(0.4·2 + 0.6·0.5) = 39.6 > 38` — outside the claimed
interval `[22, 38]`. -/
theorem claim9_counterexample_radius_overflow :
    (∀ n ∈ gMutual.nodeIds, 0 ≤ gMutual.confOf n ∧ gMutual.confOf n ≤ 1) ∧
    (∃ rec ∈ (serialise gMutual (fun _ => (400, 300))).nodes,
      ¬ rec.radius ≤ MAX_RADIUS) := by
  constructor
  · intro n hn
    have h2 : n = "A" ∨ n = "B" := by
      have h3 : n ∈ ["A", "B"] := hn
      simpa using h3
    rcases h2 with rfl | rfl
    · rw [show gMutual.confOf "A" = 1/2 from rfl]
      norm_num
    · rw [show gMutual.confOf "B" = 1/2 from rfl]
      norm_num
  · refine ⟨mkSNode gMutual (fun _ => (400, 300)) "A", ?_, ?_⟩
    · rw [serialise_nodes _ _ (by decide)]
      exact List.mem_map_of_mem _ (by decide)
    · have hl : gMutual.nodeIds.length = 2 := rfl
      have hcent : gMutual.degCent "A" = 2 := by
        unfold Graph.degCent
        rw [hl, if_neg (by norm_num),
          show gMutual.degreeOf "A" = 2 from by decide]
        push_cast
        norm_num
      have hconfA : gMutual.confOf "A" = 1/2 := rfl
      have hr : (mkSNode gMutual (fun _ => (400, 300)) "A").radius =
          pyRound (BASE_RADIUS + (MAX_RADIUS - BASE_RADIUS) *
            ((4/10) * gMutual.degCent "A" + (6/10) * gMutual.confOf "A")) 1 := rfl
      rw [hr, hcent, hconfA,
        pyRound_of_int (n := 396) (by unfold BASE_RADIUS MAX_RADIUS; norm_num)]
      unfold MAX_RADIUS
      norm_num
